import Mathlib

/-!
Shallow embedding of the git-inner server core (GitDataAI/git-inner) in Lean 4,
with theorems settling the frozen claims about its specification.

Byte strings are modelled as `List Nat` (each element a byte value).  Rust
`Result` becomes `Except`; code that can additionally panic (out-of-bounds
slice indexing, `Option::unwrap` on `None`) returns `POutcome`, whose `panic`
constructor marks exactly the program points where the Rust source panics.
External crates (the sha1/sha256 digest cores, flate2's inflater, chrono's
date formatting) are abstracted as function parameters; everything else is
translated from the source files under `src/`.
-/

namespace GitInner

/-- Bytes of an ASCII Lean string literal, used to write byte-list constants
(every literal used below is ASCII, so code points and UTF-8 bytes agree). -/
def str2bytes (s : String) : List Nat :=
  s.data.map Char.toNat

/-- The crate's error enum (`src/error.rs`), with `String` payloads kept as
Lean strings. -/
inductive GitInnerError where
  | InvalidSha1String
  | InvalidSha256String
  | MissingBaseObject
  | DeltaBaseSizeMismatch
  | DeltaInvalidInstruction
  | DeltaResultSizeMismatch
  | UnexpectedEof
  | InvalidUtf8
  | InvalidData
  | ConversionError (msg : String)
  | InvalidSignatureType (msg : String)
  | InvalidSignature
  | InvalidTimestamp
  | MongodbError (msg : String)
  | DefaultBranchCannotBeDeleted
  | ObjectNotFound (hash : List Nat)
  | MissingField (name : String)
  | InvalidTreeItem (msg : String)
  | InvalidDelta
  | MissingAuthor
  | MissingCommitter
  | ObjectStoreError (msg : String)
  | HashVersionError
  | UuidError
  | TreeParseError
  | TagParseError
  | CommitParseError
  | NotSupportVersion
  | DecompressionError
  | UnsupportedOfsDelta
  | InvalidHash
  | UnsupportedVersion
  | ZlibError
  | Payload (msg : String)
  | NotSupportCommand
  | Other (msg : String)
  deriving Repr, DecidableEq

/-- Outcome of running a piece of Rust code that may return `Ok`, return an
error, or panic. -/
inductive POutcome (α : Type) where
  | ok (a : α)
  | error (e : GitInnerError)
  | panic
  deriving Repr, DecidableEq

/-- Rust `str::strip_prefix` on byte strings: `some` of the tail when `p` is a
prefix of `s`, otherwise `none`. -/
def stripPfx : List Nat → List Nat → Option (List Nat)
  | [], s => some s
  | _ :: _, [] => none
  | p :: ps, c :: cs => if p = c then stripPfx ps cs else none

/-- Rust `str::starts_with` on byte strings. -/
def startsWith (s p : List Nat) : Bool :=
  (stripPfx p s).isSome

instance {ε α : Type} [DecidableEq ε] [DecidableEq α] : DecidableEq (Except ε α) :=
  fun x y =>
    match x, y with
    | .ok a, .ok b =>
      if h : a = b then .isTrue (by rw [h]) else .isFalse (by simp [h])
    | .error a, .error b =>
      if h : a = b then .isTrue (by rw [h]) else .isFalse (by simp [h])
    | .ok _, .error _ => .isFalse (by simp)
    | .error _, .ok _ => .isFalse (by simp)

/-- A hash value is modelled by its raw bytes (20 for SHA-1, 32 for SHA-256),
mirroring the `state` array inside `HashValue` (`src/sha/mod.rs`). -/
abbrev Hash := List Nat

/-- Source `HashValue::is_zero`: every raw byte is zero. -/
def Hash.is_zero (h : Hash) : Bool := h.all (fun b => b = 0)

/-- Source `HashValue::from_bytes`: accepts exactly raw strings of length 20 or 32. -/
def Hash.from_bytes (v : List Nat) : Option Hash :=
  if v.length = 20 ∨ v.length = 32 then some v else none

/-- The all-zero SHA-1 value produced by `HashVersion::Sha1.default()`. -/
def Hash.zero20 : Hash := List.replicate 20 0

/-- One entry of the refs store (`src/refs/mod.rs`, struct `RefItem`). -/
structure RefItem where
  name : List Nat
  value : Hash
  is_branch : Bool
  is_tag : Bool
  is_head : Bool
  deriving Repr, DecidableEq

/-- Byte-string constant `"refs/heads/"`. -/
def refsHeadsPfx : List Nat := str2bytes "refs/heads/"

/-- Byte-string constant `"refs/tags/"`. -/
def refsTagsPfx : List Nat := str2bytes "refs/tags/"

/-- Byte-string constant `"HEAD"`. -/
def headNameBytes : List Nat := str2bytes "HEAD"

/-!
Refs backend (`src/refs/mongo.rs`, `MongoRefsManager`).  The state is the list
of `RefItem`s of one repository in insertion order; `insert_one` appends, and
`find_one` / `update_one` / `delete_one` act on the first entry whose
`ref_item.name` matches (MongoDB natural order).  Backend I/O failures are not
modelled: every database call succeeds.  The `.unwrap()` on
`strip_prefix("refs/heads/")` in `del_refs` and `create_refs` is modelled by
the `panic` outcome.
-/

/-- First stored item with the given name, as `find_one` returns it. -/
def findRef (st : List RefItem) (name : List Nat) : Option RefItem :=
  st.find? (fun r => r.name = name)

/-- MongoDB `delete_one` filtered on `ref_item.name`: remove the first item
with the given name. -/
def deleteFirstRef : List RefItem → List Nat → List RefItem
  | [], _ => []
  | r :: rest, name => if r.name = name then rest else r :: deleteFirstRef rest name

/-- Source `MongoRefsManager::del_refs`. -/
def MongoRefsManager.del_refs (default_branch : List Nat) (st : List RefItem)
    (ref_name : List Nat) : POutcome (List RefItem) :=
  match stripPfx refsHeadsPfx ref_name with
  | none => .panic
  | some refs_name_stripped =>
    if refs_name_stripped = default_branch then
      .error .DefaultBranchCannotBeDeleted
    else
      .ok (deleteFirstRef st ref_name)

/-- Source `MongoRefsManager::create_refs`.  The flags are computed first; the
unconditional `.unwrap()` on `strip_prefix("refs/heads/")` then panics for any
name outside `refs/heads/`. -/
def MongoRefsManager.create_refs (default_branch : List Nat) (st : List RefItem)
    (ref_name : List Nat) (ref_value : Hash) : POutcome (List RefItem) :=
  let is_branch := startsWith ref_name refsHeadsPfx
  let is_tag := startsWith ref_name refsTagsPfx
  let is_head0 := ref_name = headNameBytes
  match stripPfx refsHeadsPfx ref_name with
  | none => .panic
  | some refs_name_stripped =>
    let is_head := if refs_name_stripped = default_branch then true else is_head0
    .ok (st ++ [{ name := ref_name, value := ref_value,
                  is_branch := is_branch, is_tag := is_tag, is_head := is_head }])

/-- Source `update_one` with a `$set` on `ref_item.value`: the first item with the
given name gets the new value; matching nothing is not an error. -/
def updateFirstRef : List RefItem → List Nat → Hash → List RefItem
  | [], _, _ => []
  | r :: rest, name, v =>
    if r.name = name then { r with value := v } :: rest
    else r :: updateFirstRef rest name v

/-- Source `MongoRefsManager::update_refs`: always returns `Ok`, even when no ref of
that name exists. -/
def MongoRefsManager.update_refs (st : List RefItem) (ref_name : List Nat)
    (ref_value : Hash) : POutcome (List RefItem) :=
  .ok (updateFirstRef st ref_name ref_value)

/-- Source `MongoRefsManager::get_value_refs`. -/
def MongoRefsManager.get_value_refs (st : List RefItem) (ref_name : List Nat) :
    Except GitInnerError Hash :=
  match findRef st ref_name with
  | some r => .ok r.value
  | none => .error (.ObjectNotFound Hash.zero20)

/-- Source `GitProtoVersion` (`src/transaction/version.rs`). -/
inductive GitProtoVersion where
  | V0
  | V1
  | V2
  | Unknown
  deriving Repr, DecidableEq

/-- Source `GitProtoVersion::from_u32`. -/
def GitProtoVersion.from_u32 : Nat → GitProtoVersion
  | 0 => .V0
  | 1 => .V1
  | 2 => .V2
  | _ => .Unknown

/-- Big-endian 32-bit read of bytes `i..i+3`, as built by the shift-or
expressions in `parse_receive_head`. -/
def be32at (l : List Nat) (i : Nat) : Nat :=
  (l.getD i 0) <<< 24 ||| (l.getD (i + 1) 0) <<< 16 |||
  (l.getD (i + 2) 0) <<< 8 ||| (l.getD (i + 3) 0)

/-- What `parse_receive_head` does after assembling the 12-byte pack header:
either hand over to `process_receive_pack` with a version and object count, or
(on `GitProtoVersion::Unknown`) fall into the `dbg!()` arm and return `Ok`
without processing anything. -/
inductive HeadRoute where
  | process (version : GitProtoVersion) (pack_size : Nat)
  | skip
  deriving Repr, DecidableEq

/-- Routing core of `Transaction::parse_receive_head`
(`src/transaction/receive/mod.rs` lines 117-149), from the point where the
12-byte header has been read off the stream.  Bytes 4..8 are the big-endian
pack version, bytes 8..12 the object count; the version is classified with
`GitProtoVersion::from_u32`, and only the `Unknown` arm skips processing. -/
def Transaction.parse_receive_head (head : List Nat) :
    Except GitInnerError HeadRoute :=
  if head.length ≠ 12 then .error .InvalidData
  else
    let version := be32at head 4
    let pack_size := be32at head 8
    let v := GitProtoVersion.from_u32 version
    match v with
    | .Unknown => .ok .skip
    | _ => .ok (.process v pack_size)

/-!
Byte-string utilities shared by the object parsers: ASCII decimal/hex
rendering, Rust `str::trim`, CRLF handling, and UTF-8 validation
(`std::str::from_utf8`).
-/

/-- ASCII decimal digits of a number, as produced by `format!` on a length. -/
def decimalAscii (n : Nat) : List Nat :=
  (Nat.toDigits 10 n).map Char.toNat

/-- ASCII lowercase hex digits of a number, no leading zeros (Rust `{:x}`). -/
def hexAscii (n : Nat) : List Nat :=
  (Nat.toDigits 16 n).map Char.toNat

/-- Rust `{:04x}`: at least four lowercase hex digits, zero-padded. -/
def hex04 (n : Nat) : List Nat :=
  let d := hexAscii n
  List.replicate (4 - d.length) 48 ++ d

/-- Two lowercase hex digits of one byte, as `hex::encode` renders it. -/
def hexByte (b : Nat) : List Nat :=
  [(fun n => if n < 10 then 48 + n else 87 + n) (b / 16 % 16),
   (fun n => if n < 10 then 48 + n else 87 + n) (b % 16)]

/-- Lowercase hex string of a raw byte string (`Display` of `HashValue`). -/
def hexEncode (l : List Nat) : List Nat :=
  l.flatMap hexByte

/-- Value of one hex digit (`u8::from_str_radix(_, 16)` accepts both cases). -/
def hexVal (c : Nat) : Option Nat :=
  if 48 ≤ c ∧ c ≤ 57 then some (c - 48)
  else if 97 ≤ c ∧ c ≤ 102 then some (c - 87)
  else if 65 ≤ c ∧ c ≤ 70 then some (c - 55)
  else none

/-- Decode a hex string two characters at a time, as `Sha1::from_str` /
`hex::decode` do.  (`from_str_radix`'s acceptance of a leading `+` inside a
two-character chunk is not modelled.) -/
def hexPairs : List Nat → Option (List Nat)
  | [] => some []
  | c1 :: c2 :: rest =>
    match hexVal c1, hexVal c2, hexPairs rest with
    | some hi, some lo, some tail => some ((hi * 16 + lo) :: tail)
    | _, _, _ => none
  | [_] => none

/-- Source `HashValue::from_str` (`src/sha/mod.rs`): 40 hex characters give a SHA-1,
64 a SHA-256, anything else is `None`. -/
def HashValue.from_str (s : List Nat) : Option Hash :=
  if s.length = 40 then hexPairs s
  else if s.length = 64 then hexPairs s
  else none

/-- ASCII whitespace for the `trim` model (the source uses Unicode
`char::is_whitespace`; every delimiter the parsers trim around is ASCII). -/
def isWs (c : Nat) : Bool :=
  c = 9 || c = 10 || c = 11 || c = 12 || c = 13 || c = 32

/-- Rust `str::trim_start`. -/
def trimStartB (l : List Nat) : List Nat := l.dropWhile isWs

/-- Rust `str::trim`. -/
def trimB (l : List Nat) : List Nat :=
  ((l.dropWhile isWs).reverse.dropWhile isWs).reverse

/-- Rust `str::contains("\r\n")`. -/
def hasCRLF : List Nat → Bool
  | 13 :: 10 :: _ => true
  | _ :: rest => hasCRLF rest
  | [] => false

/-- Rust `str::replace("\r\n", "\n")`: left-to-right, non-overlapping. -/
def replaceCRLF : List Nat → List Nat
  | 13 :: 10 :: rest => 10 :: replaceCRLF rest
  | c :: rest => c :: replaceCRLF rest
  | [] => []

/-- Byte index of the first occurrence of `"\n\n"` (Rust `str::find`). -/
def findDoubleNl : List Nat → Option Nat
  | 10 :: 10 :: _ => some 0
  | _ :: rest => (findDoubleNl rest).map (· + 1)
  | [] => none

/-- Is this byte a UTF-8 continuation byte (`0x80..=0xBF`)? -/
def isUtf8Cont (c : Nat) : Bool := 0x80 ≤ c && c ≤ 0xBF

/-- Strict UTF-8 validation, as `std::str::from_utf8` performs it (RFC 3629:
no overlong forms, no surrogates, nothing above U+10FFFF). -/
def validUtf8 : List Nat → Bool
  | [] => true
  | b :: rest =>
    if b ≤ 0x7F then validUtf8 rest
    else if 0xC2 ≤ b ∧ b ≤ 0xDF then
      match rest with
      | c1 :: r => isUtf8Cont c1 && validUtf8 r
      | [] => false
    else if b = 0xE0 then
      match rest with
      | c1 :: c2 :: r => (0xA0 ≤ c1 && c1 ≤ 0xBF) && isUtf8Cont c2 && validUtf8 r
      | _ => false
    else if (0xE1 ≤ b ∧ b ≤ 0xEC) ∨ b = 0xEE ∨ b = 0xEF then
      match rest with
      | c1 :: c2 :: r => isUtf8Cont c1 && isUtf8Cont c2 && validUtf8 r
      | _ => false
    else if b = 0xED then
      match rest with
      | c1 :: c2 :: r => (0x80 ≤ c1 && c1 ≤ 0x9F) && isUtf8Cont c2 && validUtf8 r
      | _ => false
    else if b = 0xF0 then
      match rest with
      | c1 :: c2 :: c3 :: r =>
        (0x90 ≤ c1 && c1 ≤ 0xBF) && isUtf8Cont c2 && isUtf8Cont c3 && validUtf8 r
      | _ => false
    else if 0xF1 ≤ b ∧ b ≤ 0xF3 then
      match rest with
      | c1 :: c2 :: c3 :: r =>
        isUtf8Cont c1 && isUtf8Cont c2 && isUtf8Cont c3 && validUtf8 r
      | _ => false
    else if b = 0xF4 then
      match rest with
      | c1 :: c2 :: c3 :: r =>
        (0x80 ≤ c1 && c1 ≤ 0x8F) && isUtf8Cont c2 && isUtf8Cont c3 && validUtf8 r
      | _ => false
    else false

/-- Digits-only decimal parse (empty input fails). -/
def digitsToNat (l : List Nat) : Option Nat :=
  if l = [] then none
  else l.foldl
    (fun acc c =>
      match acc with
      | none => none
      | some v => if 48 ≤ c ∧ c ≤ 57 then some (v * 10 + (c - 48)) else none)
    (some 0)

/-- Rust `str::parse::<usize>()`: optional leading `+`, then decimal digits
(overflow is not modelled). -/
def parseUsize (l : List Nat) : Option Nat :=
  match l with
  | 43 :: rest => digitsToNat rest
  | _ => digitsToNat l

/-- Rust slice `l[a..b]`: `none` models the slice-bounds panic. -/
def sliceGet (l : List Nat) (a b : Nat) : Option (List Nat) :=
  if a ≤ b ∧ b ≤ l.length then some ((l.drop a).take (b - a)) else none

/-- Rust slice `l[a..]`: `none` models the slice-bounds panic. -/
def sliceFrom (l : List Nat) (a : Nat) : Option (List Nat) :=
  if a ≤ l.length then some (l.drop a) else none

/-- Rust `str::lines`: split on `\n`, drop a final empty segment, strip a
trailing `\r` from each line. -/
def rustLines (s : List Nat) : List (List Nat) :=
  let parts := List.splitOn 10 s
  let parts := if parts.getLast? = some [] then parts.dropLast else parts
  parts.map (fun l => if l.getLast? = some 13 then l.dropLast else l)

/-!
Signatures (`src/objects/signature.rs`).  `Signature::from_data` slices with
raw index arithmetic (`sign[name_start + 1..email_start - 1]` and friends);
each such slice is modelled through `sliceGet`/`sliceFrom`, whose `none`
becomes the `panic` outcome.
-/

/-- Source `SignatureType`. -/
inductive SignatureType where
  | Author
  | Committer
  | Tagger
  deriving Repr, DecidableEq

/-- Source `SignatureType::from_data`: UTF-8 check, then one of the three tokens.
(The `String` payloads of the two error variants are not reproduced
byte-for-byte.) -/
def SignatureType.from_data (data : List Nat) : Except GitInnerError SignatureType :=
  if validUtf8 data then
    if data = str2bytes "author" then .ok .Author
    else if data = str2bytes "committer" then .ok .Committer
    else if data = str2bytes "tagger" then .ok .Tagger
    else .error (.InvalidSignatureType "unknown signature type")
  else .error (.ConversionError "invalid utf-8")

/-- Source `Signature` (name, email and timezone kept as byte strings). -/
structure Signature where
  signature_type : SignatureType
  name : List Nat
  email : List Nat
  timestamp : Nat
  timezone : List Nat
  deriving Repr, DecidableEq

/-- Source `Signature::from_data`.  `find_byte` is `findIdx?`; the four raw slices
panic exactly where the Rust ones do (including the `email_start - 1`
underflow when `<` is the first byte). -/
def Signature.from_data (sign : List Nat) : POutcome Signature :=
  match sign.findIdx? (fun c => c == 32) with
  | none => .error .InvalidSignature
  | some name_start =>
    match SignatureType.from_data (sign.take name_start) with
    | .error e => .error e
    | .ok signature_type =>
      match sign.findIdx? (fun c => c == 60) with
      | none => .error .InvalidSignature
      | some email_start =>
        match sign.findIdx? (fun c => c == 62) with
        | none => .error .InvalidSignature
        | some email_end =>
          if email_start = 0 then .panic
          else
            match sliceGet sign (name_start + 1) (email_start - 1),
                  sliceGet sign (email_start + 1) email_end with
            | some name, some email =>
              match sliceFrom sign (email_end + 2) with
              | none => .panic
              | some sign2 =>
                match sign2.findIdx? (fun c => c == 32) with
                | none => .error .InvalidSignature
                | some timestamp_split =>
                  match parseUsize (sign2.take timestamp_split) with
                  | none => .error .InvalidTimestamp
                  | some timestamp =>
                    .ok { signature_type := signature_type,
                          name := name, email := email,
                          timestamp := timestamp,
                          timezone := sign2.drop (timestamp_split + 1) }
            | _, _ => .panic

/-!
Commits (`src/objects/commit.rs`).  `Commit::parse` computes the object hash
over the original input bytes first, then normalizes CRLF to LF for parsing
only.  The digest itself (external `sha1`/`sha256` crates behind
`HashVersion::hash`) is a function parameter `H`.
-/

/-- Source `Gpgsig`. -/
structure Gpgsig where
  signature : List Nat
  deriving Repr, DecidableEq

/-- Source `Commit` (message kept as bytes). -/
structure Commit where
  hash : Hash
  message : List Nat
  author : Signature
  committer : Signature
  parents : List Hash
  tree : Option Hash
  gpgsig : Option Gpgsig
  deriving Repr, DecidableEq

/-- The bytes `Commit::parse` hashes: `"commit " ++ decimal(len) ++ NUL ++
input`, built from the original (un-normalized) input. -/
def commitHashInput (input : List Nat) : List Nat :=
  str2bytes "commit " ++ decimalAscii input.length ++ [0] ++ input

/-- Everything `Commit::parse` produces except the hash. -/
structure CommitBody where
  message : List Nat
  author : Signature
  committer : Signature
  parents : List Hash
  tree : Option Hash
  gpgsig : Option Gpgsig
  deriving Repr, DecidableEq

/-- Running state of the header-line loop in `Commit::parse`. -/
structure CommitHeaderState where
  tree : Option Hash
  parents : List Hash
  author : Option Signature
  committer : Option Signature
  gpgsig : Option (List Nat)
  collecting_gpgsig : Bool
  gpgsig_lines : List (List Nat)
  deriving Repr, DecidableEq

/-- Initial header-loop state. -/
def CommitHeaderState.init : CommitHeaderState :=
  { tree := none, parents := [], author := none, committer := none,
    gpgsig := none, collecting_gpgsig := false, gpgsig_lines := [] }

/-- Byte-string constant for the gpgsig terminator line. -/
def pgpEndMarker : List Nat := str2bytes "-----END PGP SIGNATURE-----"

/-- One iteration of the header-line loop of `Commit::parse`. -/
def commitHeaderLine (st : CommitHeaderState) (line : List Nat) :
    POutcome CommitHeaderState :=
  if st.collecting_gpgsig then
    let lines' := st.gpgsig_lines ++ [line]
    if trimStartB line = pgpEndMarker then
      .ok { st with collecting_gpgsig := false,
                    gpgsig := some (List.intercalate [10] lines'),
                    gpgsig_lines := [] }
    else .ok { st with gpgsig_lines := lines' }
  else if startsWith line (str2bytes "gpgsig ") then
    .ok { st with collecting_gpgsig := true, gpgsig_lines := st.gpgsig_lines ++ [line] }
  else
    match stripPfx (str2bytes "tree ") line with
    | some rest => .ok { st with tree := HashValue.from_str (trimB rest) }
    | none =>
      match stripPfx (str2bytes "parent ") line with
      | some rest =>
        match HashValue.from_str (trimB rest) with
        | some parent_hash => .ok { st with parents := st.parents ++ [parent_hash] }
        | none => .ok st
      | none =>
        match stripPfx (str2bytes "author ") line with
        | some rest =>
          match Signature.from_data (str2bytes "author " ++ trimB rest) with
          | .ok s => .ok { st with author := some s }
          | .error _ => .error .MissingAuthor
          | .panic => .panic
        | none =>
          match stripPfx (str2bytes "committer ") line with
          | some rest =>
            match Signature.from_data (str2bytes "committer " ++ trimB rest) with
            | .ok s => .ok { st with committer := some s }
            | .error _ => .error .MissingCommitter
            | .panic => .panic
          | none => .ok st

/-- The header-line loop. -/
def commitHeaderFold : List (List Nat) → CommitHeaderState → POutcome CommitHeaderState
  | [], st => .ok st
  | line :: rest, st =>
    match commitHeaderLine st line with
    | .ok st' => commitHeaderFold rest st'
    | .error e => .error e
    | .panic => .panic

/-- The hash-independent part of `Commit::parse`: UTF-8 check, CRLF
normalization, header/message split at the first `"\n\n"`, header-line loop,
and the required-field checks. -/
def Commit.parseBody (input : List Nat) : POutcome CommitBody :=
  if validUtf8 input then
    let normalized := if hasCRLF input then replaceCRLF input else input
    let header_end_pos := (findDoubleNl normalized).getD normalized.length
    let header := normalized.take header_end_pos
    let message :=
      if header_end_pos = normalized.length then []
      else normalized.drop (header_end_pos + 2)
    match commitHeaderFold (List.splitOn 10 header) CommitHeaderState.init with
    | .error e => .error e
    | .panic => .panic
    | .ok st =>
      match st.author with
      | none => .error .MissingAuthor
      | some author =>
        match st.committer with
        | none => .error .MissingCommitter
        | some committer =>
          .ok { message := message, author := author, committer := committer,
                parents := st.parents, tree := st.tree,
                gpgsig := st.gpgsig.map (fun s => { signature := s }) }
  else .error .InvalidUtf8

/-- Source `Commit::parse`: the hash is computed over the original bytes before any
normalization, and stored verbatim in the result. -/
def Commit.parse (H : List Nat → Hash) (input : List Nat) : POutcome Commit :=
  let hash := H (commitHashInput input)
  match Commit.parseBody input with
  | .ok b =>
    .ok { hash := hash, message := b.message, author := b.author,
          committer := b.committer, parents := b.parents, tree := b.tree,
          gpgsig := b.gpgsig }
  | .error e => .error e
  | .panic => .panic

/-- Hash of a successfully parsed commit, `none` otherwise. -/
def commitHashOf : POutcome Commit → Option Hash
  | .ok c => some c.hash
  | _ => none

/-- Whether a `POutcome` is `ok`. -/
def POutcome.isOk {α : Type} : POutcome α → Bool
  | .ok _ => true
  | _ => false

/-!
Delta codec (`src/objects/ref_delta.rs`, `RefDelta::apply_git_delta` and
`RefDelta::read_varint`).  The Rust code indexes `delta_reader[0]` and slices
`base[off..off+size]` / `delta_reader[..n]` without bounds checks; every such
spot is modelled by an explicit check whose failure is the `panic` outcome.
The shift in `read_varint` is modelled as mathematical shift (Rust would
abort on shift overflow for 10+ continuation bytes; no claim depends on it).
-/

/-- Source `RefDelta::read_varint`: little-endian 7-bit groups, high bit is the
continuation flag.  Arguments after the input list are the running `shift`
and `result` accumulators. -/
def RefDelta.read_varint : List Nat → Nat → Nat → Except GitInnerError (Nat × List Nat)
  | [], _, _ => .error .UnexpectedEof
  | byte :: rest, shift, acc =>
    let acc' := acc ||| ((byte &&& 0x7F) <<< shift)
    if byte &&& 0x80 = 0 then .ok (acc', rest)
    else RefDelta.read_varint rest (shift + 7) acc'

/-- One conditional operand-byte read of the copy instruction
(`copy_offset |= (delta_reader[0] as usize) << shift` guarded by an opcode
bit).  Reading from an empty reader is the `delta_reader[0]` panic, `none`
here.  The returned suffix carries its length bound for termination. -/
def RefDelta.readOpByte (cond : Bool) (shift : Nat) (acc : Nat) (reader : List Nat) :
    Option (Nat × { r : List Nat // r.length ≤ reader.length }) :=
  if cond then
    match reader with
    | [] => none
    | b :: r => some (acc ||| (b <<< shift), ⟨r, by simp⟩)
  else some (acc, ⟨reader, Nat.le_refl _⟩)

/-- The six guarded operand reads of a copy instruction, in source order:
offset bytes for opcode bits 0..3, size bytes for bits 4..6. -/
def RefDelta.readCopyOperands (opcode : Nat) (reader : List Nat) :
    Option (Nat × Nat × { r : List Nat // r.length ≤ reader.length }) :=
  match RefDelta.readOpByte (opcode &&& 0x01 != 0) 0 0 reader with
  | none => none
  | some (o1, ⟨r1, h1⟩) =>
    match RefDelta.readOpByte (opcode &&& 0x02 != 0) 8 o1 r1 with
    | none => none
    | some (o2, ⟨r2, h2⟩) =>
      match RefDelta.readOpByte (opcode &&& 0x04 != 0) 16 o2 r2 with
      | none => none
      | some (o3, ⟨r3, h3⟩) =>
        match RefDelta.readOpByte (opcode &&& 0x08 != 0) 24 o3 r3 with
        | none => none
        | some (o4, ⟨r4, h4⟩) =>
          match RefDelta.readOpByte (opcode &&& 0x10 != 0) 0 0 r4 with
          | none => none
          | some (s1, ⟨r5, h5⟩) =>
            match RefDelta.readOpByte (opcode &&& 0x20 != 0) 8 s1 r5 with
            | none => none
            | some (s2, ⟨r6, h6⟩) =>
              match RefDelta.readOpByte (opcode &&& 0x40 != 0) 16 s2 r6 with
              | none => none
              | some (s3, ⟨r7, h7⟩) =>
                some (o4, s3,
                  ⟨r7, h7.trans (h6.trans (h5.trans (h4.trans (h3.trans (h2.trans h1)))))⟩)

/-- The `while !delta_reader.is_empty()` instruction loop of
`apply_git_delta`: copy instructions (high bit set), literal inserts
(nonzero opcode), and the hard error on opcode `0x00`.  Out-of-range copy
ranges and truncated insert data are the slice-indexing panics. -/
def RefDelta.applyCopyInsertLoop (base : List Nat) (reader : List Nat)
    (result : List Nat) : POutcome (List Nat) :=
  match reader with
  | [] => .ok result
  | opcode :: rest =>
    if opcode &&& 0x80 ≠ 0 then
      match RefDelta.readCopyOperands opcode rest with
      | none => .panic
      | some (copy_offset, copy_size0, ⟨rest', _h⟩) =>
        let copy_size := if copy_size0 = 0 then 0x10000 else copy_size0
        if copy_offset + copy_size ≤ base.length then
          RefDelta.applyCopyInsertLoop base rest'
            (result ++ (base.drop copy_offset).take copy_size)
        else .panic
    else if opcode ≠ 0 then
      if opcode ≤ rest.length then
        RefDelta.applyCopyInsertLoop base (rest.drop opcode)
          (result ++ rest.take opcode)
      else .panic
    else .error .DeltaInvalidInstruction
termination_by reader.length
decreasing_by
  · simp only [List.length_cons]
    exact Nat.lt_succ_of_le _h
  · simp only [List.length_cons, List.length_drop]
    omega

/-- Source `RefDelta::apply_git_delta`: read the two varint sizes, check the base
size, run the instruction loop, check the result size. -/
def RefDelta.apply_git_delta (base delta : List Nat) : POutcome (List Nat) :=
  match RefDelta.read_varint delta 0 0 with
  | .error e => .error e
  | .ok (base_size, r1) =>
    match RefDelta.read_varint r1 0 0 with
    | .error e => .error e
    | .ok (result_size, delta_reader) =>
      if base_size ≠ base.length then .error .DeltaBaseSizeMismatch
      else
        match RefDelta.applyCopyInsertLoop base delta_reader [] with
        | .ok result =>
          if result.length ≠ result_size then .error .DeltaResultSizeMismatch
          else .ok result
        | .error e => .error e
        | .panic => .panic

/-- Decidable well-formedness of the instruction stream against a base
length: all copy/insert operands are present and every copy range lies within
the base.  (Opcode `0x00` is allowed: the loop stops there with a named
error, not a panic.) -/
def RefDelta.instructionsInBounds (baseLen : Nat) (reader : List Nat) : Bool :=
  match reader with
  | [] => true
  | opcode :: rest =>
    if opcode &&& 0x80 ≠ 0 then
      match RefDelta.readCopyOperands opcode rest with
      | none => false
      | some (copy_offset, copy_size0, ⟨rest', _h⟩) =>
        let copy_size := if copy_size0 = 0 then 0x10000 else copy_size0
        decide (copy_offset + copy_size ≤ baseLen) &&
          RefDelta.instructionsInBounds baseLen rest'
    else if opcode ≠ 0 then
      decide (opcode ≤ rest.length) &&
        RefDelta.instructionsInBounds baseLen (rest.drop opcode)
    else true
termination_by reader.length
decreasing_by
  · simp only [List.length_cons]
    exact Nat.lt_succ_of_le _h
  · simp only [List.length_cons, List.length_drop]
    omega

/-- Well-formedness of a whole delta against a base: when both varint headers
parse, the instruction stream is in bounds (a failed varint read is a named
error, which the claim allows). -/
def RefDelta.deltaOperandsOk (base delta : List Nat) : Bool :=
  match RefDelta.read_varint delta 0 0 with
  | .error _ => true
  | .ok (_, r1) =>
    match RefDelta.read_varint r1 0 0 with
    | .error _ => true
    | .ok (_, delta_reader) => RefDelta.instructionsInBounds base.length delta_reader

/-!
Object kinds, trees, blobs and tags (`src/objects/types.rs`,
`src/objects/tree.rs`, `src/objects/blob.rs`, `src/objects/tag.rs`).
-/

/-- Source `ObjectType`, with the variant names used by the receive pipeline. -/
inductive ObjectType where
  | Unknown
  | Commit
  | Tree
  | Blob
  | Tag
  | OfsDelta
  | RefDelta
  deriving Repr, DecidableEq

/-- Source `ObjectType::from_str` (only the four real kinds matter to the parsers;
everything else is `Unknown`). -/
def ObjectType.from_str (s : List Nat) : ObjectType :=
  if s = str2bytes "commit" then .Commit
  else if s = str2bytes "tree" then .Tree
  else if s = str2bytes "blob" then .Blob
  else if s = str2bytes "tag" then .Tag
  else .Unknown

/-- Source `TreeItemMode`. -/
inductive TreeItemMode where
  | Blob
  | BlobExecutable
  | Tree
  | Commit
  | Link
  deriving Repr, DecidableEq

/-- Source `TreeItemMode::to_bytes` (note: `Tree` serializes as `40000`). -/
def TreeItemMode.to_bytes : TreeItemMode → List Nat
  | .Blob => str2bytes "100644"
  | .BlobExecutable => str2bytes "100755"
  | .Link => str2bytes "120000"
  | .Tree => str2bytes "40000"
  | .Commit => str2bytes "160000"

/-- Source `TreeItemMode::tree_item_type_from_bytes` (lenient on parse: both
`040000` and `40000` are trees). -/
def TreeItemMode.tree_item_type_from_bytes (mode : List Nat) :
    Except GitInnerError TreeItemMode :=
  if mode = str2bytes "040000" ∨ mode = str2bytes "40000" then .ok .Tree
  else if mode = str2bytes "100644" ∨ mode = str2bytes "100664" ∨
          mode = str2bytes "100640" then .ok .Blob
  else if mode = str2bytes "100755" then .ok .BlobExecutable
  else if mode = str2bytes "120000" then .ok .Link
  else if mode = str2bytes "160000" then .ok .Commit
  else .error (.InvalidTreeItem "unknown mode")

/-- Source `TreeItem`. -/
structure TreeItem where
  mode : TreeItemMode
  id : Hash
  name : List Nat
  deriving Repr, DecidableEq

/-- The raw-hash step of `TreeItem::to_data`: raw 20/32-byte hashes pass
through, 40/64-character hex is decoded (`hex::decode(...).expect(...)`
panics on bad hex), and any other length hits the `panic!` arm. -/
def rawHashBytesP (raw : List Nat) : POutcome (List Nat) :=
  if raw.length = 20 ∨ raw.length = 32 then .ok raw
  else if raw.length = 40 ∨ raw.length = 64 then
    match hexPairs raw with
    | some v => .ok v
    | none => .panic
  else .panic

/-- Source `TreeItem::to_data`: `<mode> SP <name> NUL <raw-hash>`. -/
def TreeItem.to_data (i : TreeItem) : POutcome (List Nat) :=
  match rawHashBytesP i.id with
  | .ok raw_bytes => .ok (i.mode.to_bytes ++ [32] ++ i.name ++ [0] ++ raw_bytes)
  | .error e => .error e
  | .panic => .panic

/-- Source `Tree`. -/
structure Tree where
  id : Hash
  tree_items : List TreeItem
  deriving Repr, DecidableEq

/-- Concatenation of the entries' serializations, in list order. -/
def treeItemsData : List TreeItem → POutcome (List Nat)
  | [] => .ok []
  | i :: rest =>
    match TreeItem.to_data i with
    | .ok d =>
      match treeItemsData rest with
      | .ok ds => .ok (d ++ ds)
      | .error e => .error e
      | .panic => .panic
    | .error e => .error e
    | .panic => .panic

/-- Source `impl ObjectTrait for Tree`, `get_data`: the entries are emitted in the
order in which they are stored in `tree_items`; no reordering happens. -/
def Tree.get_data (t : Tree) : POutcome (List Nat) :=
  treeItemsData t.tree_items

/-- Entry loop of `Tree::parse` over the remaining input bytes: `<mode> SP
<name> NUL <20-byte hash>` per entry (the hash width is hard-coded to 20). -/
def treeParseLoop (rem : List Nat) : POutcome (List TreeItem) :=
  match hrem : rem with
  | [] => .ok []
  | _ :: _ =>
    match rem.findIdx? (fun c => c == 32) with
    | none => .error (.InvalidTreeItem "Missing space after mode")
    | some space_pos =>
      match TreeItemMode.tree_item_type_from_bytes (rem.take space_pos) with
      | .error e => .error e
      | .ok mode =>
        let rem1 := rem.drop (space_pos + 1)
        match rem1.findIdx? (fun c => c == 0) with
        | none => .error (.InvalidTreeItem "Missing null after filename")
        | some null_pos =>
          let name_bytes := rem1.take null_pos
          if validUtf8 name_bytes then
            let rem2 := rem1.drop (null_pos + 1)
            if rem2.length < 20 then
              .error (.InvalidTreeItem "Tree item hash truncated")
            else
              match treeParseLoop (rem2.drop 20) with
              | .ok items =>
                .ok ({ mode := mode, id := rem2.take 20, name := name_bytes } :: items)
              | .error e => .error e
              | .panic => .panic
          else .error (.InvalidTreeItem "Filename not UTF-8")
termination_by rem.length
decreasing_by
  subst hrem
  simp only [List.length_drop, List.length_cons]
  omega

/-- Source `Tree::parse`: parse the entries, then hash `"tree " ++ decimal(len) ++
NUL ++ input`. -/
def Tree.parse (H : List Nat → Hash) (input : List Nat) : POutcome Tree :=
  match treeParseLoop input with
  | .ok tree_items =>
    .ok { id := H (str2bytes "tree " ++ decimalAscii input.length ++ [0] ++ input),
          tree_items := tree_items }
  | .error e => .error e
  | .panic => .panic

/-- Source `Blob`. -/
structure Blob where
  id : Hash
  data : List Nat
  deriving Repr, DecidableEq

/-- Source `Blob::parse` (total): hash `"blob " ++ decimal(len) ++ NUL ++ input`. -/
def Blob.parse (H : List Nat → Hash) (input : List Nat) : Blob :=
  { id := H (str2bytes "blob " ++ decimalAscii input.length ++ [0] ++ input),
    data := input }

/-- Source `Tag`. -/
structure Tag where
  id : Hash
  object_hash : Hash
  object_type : ObjectType
  tag_name : List Nat
  tagger : Signature
  message : List Nat
  deriving Repr, DecidableEq

/-- Running state of the header loop in `Tag::parse`. -/
structure TagHeaderState where
  object_hash : Option Hash
  object_type : Option ObjectType
  tag_name : Option (List Nat)
  tagger : Option Signature
  deriving Repr, DecidableEq

/-- One iteration of the header loop of `Tag::parse`.  `tagger` uses
`Signature::from_data(...).ok()`: parse errors become `None`, but a parser
panic still propagates. -/
def tagHeaderLine (st : TagHeaderState) (line : List Nat) :
    POutcome TagHeaderState :=
  if startsWith line (str2bytes "object ") then
    .ok { st with object_hash := HashValue.from_str (trimB (line.drop 7)) }
  else if startsWith line (str2bytes "type ") then
    .ok { st with object_type := some (ObjectType.from_str (trimB (line.drop 5))) }
  else if startsWith line (str2bytes "tag ") then
    .ok { st with tag_name := some (trimB (line.drop 4)) }
  else if startsWith line (str2bytes "tagger ") then
    match Signature.from_data (trimB (line.drop 7)) with
    | .ok s => .ok { st with tagger := some s }
    | .error _ => .ok { st with tagger := none }
    | .panic => .panic
  else .ok st

/-- The tag header loop. -/
def tagHeaderFold : List (List Nat) → TagHeaderState → POutcome TagHeaderState
  | [], st => .ok st
  | line :: rest, st =>
    match tagHeaderLine st line with
    | .ok st' => tagHeaderFold rest st'
    | .error e => .error e
    | .panic => .panic

/-- Source `Tag::parse`. -/
def Tag.parse (H : List Nat → Hash) (input : List Nat) : POutcome Tag :=
  if ¬ validUtf8 input then .error .InvalidUtf8
  else
    match findDoubleNl input with
    | none => .error (.MissingField "message")
    | some split_index =>
      let header_str := input.take split_index
      let message := input.drop (split_index + 2)
      match tagHeaderFold (rustLines header_str)
          { object_hash := none, object_type := none, tag_name := none, tagger := none } with
      | .error e => .error e
      | .panic => .panic
      | .ok st =>
        match st.object_hash with
        | none => .error (.MissingField "object")
        | some object_hash =>
          match st.object_type with
          | none => .error (.MissingField "type")
          | some object_type =>
            match st.tag_name with
            | none => .error (.MissingField "tag")
            | some tag_name =>
              match st.tagger with
              | none => .error (.MissingField "tagger")
              | some tagger =>
                .ok { id := H (str2bytes "tag " ++ decimalAscii input.length ++ [0] ++ input),
                      object_hash := object_hash, object_type := object_type,
                      tag_name := tag_name, tagger := tagger, message := message }

/-!
Canonical tree ordering, for comparison with the serializer.
-/

/-- Modelled from the spec: the sort key of a tree entry under the canonical
Git ordering is the entry name with a virtual `/` appended for subtree
entries. -/
def gitEntryKey (i : TreeItem) : List Nat :=
  i.name ++ (if i.mode = TreeItemMode.Tree then [47] else [])

/-- Lexicographic order on byte strings (memcmp style). -/
def lexLe : List Nat → List Nat → Bool
  | [], _ => true
  | _ :: _, [] => false
  | a :: as_, b :: bs =>
    if a < b then true else if a = b then lexLe as_ bs else false

/-- Modelled from the spec: canonical ordering relation on tree entries. -/
def treeKeyLe (a b : TreeItem) : Prop :=
  lexLe (gitEntryKey a) (gitEntryKey b) = true

instance : DecidableRel treeKeyLe :=
  fun a b => inferInstanceAs (Decidable (lexLe _ _ = true))

/-- Modelled from the spec: the canonical serialization of a tree emits the
entries sorted by `treeKeyLe`, regardless of stored order. -/
def canonicalTreeData (t : Tree) : POutcome (List Nat) :=
  treeItemsData (List.insertionSort treeKeyLe t.tree_items)

/-- Tree with entries stored out of canonical order, used against C6. -/
def c6cex : Tree :=
  { id := Hash.zero20,
    tree_items :=
      [ { mode := TreeItemMode.Blob, id := Hash.zero20, name := str2bytes "b" },
        { mode := TreeItemMode.Blob, id := Hash.zero20, name := str2bytes "a" } ] }

/-- Canonically sorted tree — a file `foo` and a subtree `foo` in that
order — used to witness C6's amended statement. -/
def c6wit : Tree :=
  { id := Hash.zero20,
    tree_items :=
      [ { mode := TreeItemMode.Blob, id := Hash.zero20, name := str2bytes "foo" },
        { mode := TreeItemMode.Tree, id := Hash.zero20, name := str2bytes "foo" } ] }

/-!
Receive-pack pipeline (`src/transaction/receive/parse_receive_object.rs`,
`parse_objects.rs`, `zlib_decode.rs`, `command.rs`).  The inbound byte stream
is modelled as one byte list (the source's `ensure_buf` only concatenates
stream chunks into the buffer, and end of stream is `UnexpectedEof`).  The
callback sink is modelled by accumulating the byte string of every `send` in
order.  External pieces live in `ExternalFns`.
-/

/-- External functions of the receive/upload pipelines: the flate2 inflater
(consumes a prefix of the stream, returns the inflated bytes and the rest),
the configured digest (`HashVersion::hash`), the chrono-backed `Display`
serializations of commits and tags used by `get_data`, and the
floating-point progress formatter `format!("Progress: {:.2}% ({}/{})\n", ..)`
applied to (total, remaining, resolved-this-round). -/
structure ExternalFns where
  inflate : List Nat → Except GitInnerError (List Nat × List Nat)
  hashRaw : List Nat → Hash
  commitData : Commit → List Nat
  tagData : Tag → List Nat
  progressLine : Nat → Nat → Nat → List Nat

/-- Source `decompress_object_data`: run the inflater, then reject an inflated size
different from the declared one with `DecompressionError`. -/
def decompress_object_data (ext : ExternalFns) (input : List Nat)
    (expected_size : Nat) : Except GitInnerError (List Nat × List Nat) :=
  match ext.inflate input with
  | .error e => .error e
  | .ok (object_data, rest) =>
    if object_data.length ≠ expected_size then .error .DecompressionError
    else .ok (object_data, rest)

/-- The transaction-scoped object store: one collection per kind, insertion
order preserved (`insert_one` appends, `find_one` takes the first match). -/
structure OdbState where
  commits : List Commit
  trees : List Tree
  blobs : List Blob
  tags : List Tag
  deriving Repr, DecidableEq

/-- The empty object store. -/
def OdbState.empty : OdbState :=
  { commits := [], trees := [], blobs := [], tags := [] }

/-- Does any `has_<kind>` probe succeed for this hash? -/
def OdbState.hasAny (odb : OdbState) (h : Hash) : Bool :=
  odb.commits.any (fun c => c.hash = h) || odb.trees.any (fun t => t.id = h) ||
  odb.blobs.any (fun b => b.id = h) || odb.tags.any (fun t => t.id = h)

/-- Source `process_object_data` (`parse_objects.rs`): parse the payload by kind,
stage the object in the transaction, return its hash.  Parser errors are
mapped to the per-kind parse error. -/
def Transaction.process_object_data (ext : ExternalFns) (object_type : ObjectType)
    (data : List Nat) (odb : OdbState) : POutcome (Hash × OdbState) :=
  match object_type with
  | .Commit =>
    match Commit.parse ext.hashRaw data with
    | .ok commit => .ok (commit.hash, { odb with commits := odb.commits ++ [commit] })
    | .error _ => .error .CommitParseError
    | .panic => .panic
  | .Tree =>
    match Tree.parse ext.hashRaw data with
    | .ok tree => .ok (tree.id, { odb with trees := odb.trees ++ [tree] })
    | .error _ => .error .TreeParseError
    | .panic => .panic
  | .Blob =>
    let blob := Blob.parse ext.hashRaw data
    .ok (blob.id, { odb with blobs := odb.blobs ++ [blob] })
  | .Tag =>
    match Tag.parse ext.hashRaw data with
    | .ok tag => .ok (tag.id, { odb with tags := odb.tags ++ [tag] })
    | .error _ => .error .TagParseError
    | .panic => .panic
  | _ => .error .NotSupportVersion

/-- Source `GitCapability` (`src/capability/enums.rs`), payloads as byte strings. -/
inductive GitCapability where
  | MultiAck
  | MultiAckDetailed
  | NoDone
  | ThinPack
  | SideBand
  | SideBand64k
  | OfsDelta
  | Shallow
  | DeferredFetch
  | NoProgress
  | IncludeTag
  | ReportStatus
  | DeleteRefs
  | Quiet
  | Atomic
  | PushOptions
  | Agent (s : List Nat)
  | ObjectFormat (s : List Nat)
  | Symref (a b : List Nat)
  | Other (s : List Nat)
  deriving Repr, DecidableEq

/-- Source `ReceiveCommand` (`receive/command.rs`). -/
structure ReceiveCommand where
  old : Hash
  new : Hash
  ref_name : List Nat
  deriving Repr, DecidableEq

/-- Source `ReceiveCommand::is_delete`. -/
def ReceiveCommand.is_delete (c : ReceiveCommand) : Bool := c.new.is_zero

/-- Source `ReceiveCommand::is_update` (note: defined as not-delete in the source,
so creates also count as updates). -/
def ReceiveCommand.is_update (c : ReceiveCommand) : Bool := ! c.is_delete

/-- Source `ReceiveCommand::is_create`. -/
def ReceiveCommand.is_create (c : ReceiveCommand) : Bool := c.old.is_zero

/-- Source `write_pkt_line` (`src/pkt_line.rs`): four hex digits of `len + 5`, the
payload, and an extra trailing newline. -/
def write_pkt_line (data : List Nat) : List Nat :=
  hex04 (data.length + 5) ++ data ++ [10]

/-- Source `CallBack::send_side_pkt_line` (`src/callback/mod.rs`): band 0 sends
`0001`; otherwise four hex digits of `len + 1 + 4`, the band byte, the
payload. -/
def send_side_pkt_line_bytes (line : List Nat) (band : Nat) : List Nat :=
  if band = 0 then hex04 1
  else hex04 (line.length + 1 + 4) ++ [band] ++ line

/-- Source `bend_pkt_flush` (`src/callback/sidebend.rs`): `0009`, a `\x01` byte,
then `00000000`. -/
def bend_pkt_flush : List Nat :=
  hex04 9 ++ [1] ++ str2bytes "00000000"

/-- The continuation-byte loop of the pack object header: called with the
bits gathered so far whenever the previous byte had its high bit set. -/
def packSizeCont : List Nat → Nat → Nat → Except GitInnerError (Nat × List Nat)
  | [], _, _ => .error .UnexpectedEof
  | byte :: rest, shift, size =>
    let size' := size ||| ((byte &&& 0x7F) <<< shift)
    if byte &&& 0x80 ≠ 0 then packSizeCont rest (shift + 7) size'
    else .ok (size', rest)

/-- The type+size header of one pack object: returns the first byte, the
decoded size, the number of header bytes consumed, and the remaining
stream. -/
def parsePackObjHeader (input : List Nat) :
    Except GitInnerError (Nat × Nat × Nat × List Nat) :=
  match input with
  | [] => .error .UnexpectedEof
  | first :: rest =>
    let size0 := first &&& 0x0F
    if first &&& 0x80 ≠ 0 then
      match packSizeCont rest 4 size0 with
      | .error e => .error e
      | .ok (size, rest') => .ok (first, size, input.length - rest'.length, rest')
    else .ok (first, size0, 1, rest)

/-- One entry of `resolved_by_offset` (`resolved_ofs`, a `BTreeMap` keyed by
the object's start offset in the pack). -/
structure ResolvedEntry where
  offset : Nat
  hash : Hash
  data : List Nat
  otype : ObjectType
  deriving Repr, DecidableEq

/-- Source `BTreeMap::insert`: keep the list sorted ascending by offset, replacing
an existing entry with the same key. -/
def insertResolved : List ResolvedEntry → ResolvedEntry → List ResolvedEntry
  | [], e => [e]
  | x :: rest, e =>
    if e.offset < x.offset then e :: x :: rest
    else if e.offset = x.offset then e :: rest
    else x :: insertResolved rest e

/-- One entry of the unresolved ref-delta map (`HashMap` iteration is
modelled as insertion order). -/
structure RefDeltaEntry where
  offset : Nat
  base_hash : Hash
  delta : List Nat
  deriving Repr, DecidableEq

/-- The object-decoding loop of `process_receive_pack` (`while pack_count <
self.pack_size`), recursing on the number of objects still to read.  The
`ObjectType::Unknown` arm of the source is unreachable (the type id match
has already rejected everything outside 1-4, 6, 7) and is not modelled. -/
def phaseA (ext : ExternalFns) (hash_len : Nat) :
    Nat → List Nat → Nat → OdbState → List ResolvedEntry → List RefDeltaEntry →
    List (List Nat) →
    POutcome (OdbState × List ResolvedEntry × List RefDeltaEntry × List (List Nat))
  | 0, _input, _off, odb, resolved, rd, out => .ok (odb, resolved, rd, out)
  | n + 1, input, off, odb, resolved, rd, out =>
    let obj_start := off
    match parsePackObjHeader input with
    | .error e => .error e
    | .ok (first, size, consumed, input1) =>
      let off1 := off + consumed
      let type_id := (first >>> 4) &&& 0x07
      if type_id = 1 ∨ type_id = 2 ∨ type_id = 3 ∨ type_id = 4 then
        let object_type :=
          if type_id = 1 then ObjectType.Commit
          else if type_id = 2 then ObjectType.Tree
          else if type_id = 3 then ObjectType.Blob
          else ObjectType.Tag
        match decompress_object_data ext input1 size with
        | .error e => .error e
        | .ok (obj_bytes, input2) =>
          match Transaction.process_object_data ext object_type obj_bytes odb with
          | .error e => .error e
          | .panic => .panic
          | .ok (hash, odb') =>
            phaseA ext hash_len n input2 off1 odb'
              (insertResolved resolved
                { offset := obj_start, hash := hash, data := obj_bytes,
                  otype := object_type })
              rd out
      else if type_id = 6 then .error .UnsupportedOfsDelta
      else if type_id = 7 then
        if input1.length < hash_len then .error .UnexpectedEof
        else
          match Hash.from_bytes (input1.take hash_len) with
          | none => .error .InvalidHash
          | some base_hash =>
            match decompress_object_data ext (input1.drop hash_len) size with
            | .error e => .error e
            | .ok (delta_bytes, input3) =>
              phaseA ext hash_len n input3 (off1 + hash_len) odb resolved
                (rd ++ [{ offset := obj_start, base_hash := base_hash,
                          delta := delta_bytes }])
                out
      else .error .InvalidData

/-- Source `RefDelta::apply_delta`: look the base up among the just-resolved pack
objects (by hash, in ascending offset order), else probe the transaction's
store blob/commit/tree/tag in that order; the base's payload comes from the
object's `get_data`.  Then apply the delta codec. -/
def RefDelta.apply_delta (ext : ExternalFns) (base_hash : Hash)
    (delta_data : List Nat) (odb : OdbState) (resolved : List ResolvedEntry) :
    POutcome (List Nat × ObjectType) :=
  match
    (match resolved.find? (fun e => e.hash = base_hash) with
     | some e => POutcome.ok (e.data, e.otype)
     | none =>
       match odb.blobs.find? (fun (b : Blob) => b.id = base_hash) with
       | some blob => POutcome.ok (blob.data, ObjectType.Blob)
       | none =>
         match odb.commits.find? (fun (c : Commit) => c.hash = base_hash) with
         | some commit => POutcome.ok (ext.commitData commit, ObjectType.Commit)
         | none =>
           match odb.trees.find? (fun (t : Tree) => t.id = base_hash) with
           | some tree =>
             match Tree.get_data tree with
             | .ok d => POutcome.ok (d, ObjectType.Tree)
             | .error e => POutcome.error e
             | .panic => POutcome.panic
           | none =>
             match odb.tags.find? (fun (t : Tag) => t.id = base_hash) with
             | some tag => POutcome.ok (ext.tagData tag, ObjectType.Tag)
             | none => POutcome.error .MissingBaseObject)
  with
  | .error e => .error e
  | .panic => .panic
  | .ok (base_obj_bytes, obj) =>
    match RefDelta.apply_git_delta base_obj_bytes delta_data with
    | .ok result => .ok (result, obj)
    | .error e => .error e
    | .panic => .panic

/-- One round of the resolution loop: try every unresolved ref-delta against
the current store and resolved map (`if let Ok(..)` — delta failures are
skipped, but `process_object_data` errors and panics propagate).  Returns the
new store, the new resolved map, and the offsets resolved this round. -/
def resolveRound (ext : ExternalFns) :
    List RefDeltaEntry → OdbState → List ResolvedEntry → List Nat →
    POutcome (OdbState × List ResolvedEntry × List Nat)
  | [], odb, resolved, acc => .ok (odb, resolved, acc)
  | e :: rest, odb, resolved, acc =>
    match RefDelta.apply_delta ext e.base_hash e.delta odb resolved with
    | .panic => .panic
    | .error _ => resolveRound ext rest odb resolved acc
    | .ok (full_bytes, obj) =>
      match Transaction.process_object_data ext obj full_bytes odb with
      | .error er => .error er
      | .panic => .panic
      | .ok (hash, odb') =>
        resolveRound ext rest odb'
          (insertResolved resolved
            { offset := e.offset, hash := hash, data := full_bytes, otype := obj })
          (acc ++ [e.offset])

/-- Progress message emission after a resolution round. -/
def progressOut (ext : ExternalFns) (sidebend : Bool)
    (ref_total remaining resolved_now : Nat) : List Nat :=
  if sidebend then
    send_side_pkt_line_bytes (ext.progressLine ref_total remaining resolved_now) 2
  else
    write_pkt_line (ext.progressLine ref_total remaining resolved_now)

/-- The bounded ref-delta resolution loop of `process_receive_pack`.  The
fuel is `resolved_count` (initially 20); it is decremented at the top of each
iteration and the loop breaks when it reaches zero.  Reaching the loop top
with fuel 0 would underflow the `usize` counter (unreachable from the initial
value); it is modelled as a panic. -/
def resolveLoop (ext : ExternalFns) (sidebend : Bool) (ref_total : Nat) :
    Nat → List RefDeltaEntry → OdbState → List ResolvedEntry → List (List Nat) →
    POutcome (OdbState × List ResolvedEntry × List RefDeltaEntry × List (List Nat))
  | 0, _, _, _, _ => .panic
  | fuel + 1, unresolved, odb, resolved, out =>
    if unresolved.isEmpty then .ok (odb, resolved, unresolved, out)
    else
      match resolveRound ext unresolved odb resolved [] with
      | .panic => .panic
      | .error e => .error e
      | .ok (odb', resolved', keys) =>
        if keys.isEmpty then .error .MissingBaseObject
        else
          let remaining_count := unresolved.length
          let unresolved' := unresolved.filter (fun e => ! keys.contains e.offset)
          let out' := out ++ [progressOut ext sidebend ref_total remaining_count keys.length]
          if fuel = 0 then .ok (odb', resolved', unresolved', out')
          else resolveLoop ext sidebend ref_total fuel unresolved' odb' resolved' out'

/-- The report line `"ok <ref>\n"`, through `write_pkt_line` and (under
side-band) `send_side_pkt_line` on the primary band. -/
def okLine (sidebend : Bool) (ref_name : List Nat) : List Nat :=
  if sidebend then
    send_side_pkt_line_bytes (write_pkt_line (str2bytes "ok " ++ ref_name ++ [10])) 1
  else
    write_pkt_line (str2bytes "ok " ++ ref_name ++ [10])

/-- The `"unpack ok\n"` line, always sent through `send_side_pkt_line` on the
primary band. -/
def unpackOkPkt : List Nat :=
  send_side_pkt_line_bytes (write_pkt_line (str2bytes "unpack ok" ++ [10])) 1

/-- One iteration of the ref-command loop: creates go through `create_refs`,
everything else with a nonzero new hash through `update_refs`, deletes do
nothing; a successful call sets the (loop-wide) `ok` flag, a failed call
leaves it unchanged. -/
def refCmdStep (default_branch : List Nat) (refs : List RefItem) (ok : Bool)
    (idx : ReceiveCommand) : POutcome (List RefItem × Bool) :=
  if idx.is_create then
    match MongoRefsManager.create_refs default_branch refs idx.ref_name idx.new with
    | .ok refs' => .ok (refs', true)
    | .error _ => .ok (refs, ok)
    | .panic => .panic
  else if idx.is_update then
    match MongoRefsManager.update_refs refs idx.ref_name idx.new with
    | .ok refs' => .ok (refs', true)
    | .error _ => .ok (refs, ok)
    | .panic => .panic
  else .ok (refs, ok)

/-- The ref-update loop of `process_receive_pack`.  The `ok` flag lives
outside the loop in the source and is therefore threaded through unchanged
across iterations: a command is reported `ok` whenever any earlier command
(or itself) succeeded, failures are silently swallowed, and no `ng` line is
ever produced. -/
def refLoop (default_branch : List Nat) (sidebend : Bool) :
    List ReceiveCommand → Bool → List RefItem → List (List Nat) →
    POutcome (List RefItem × Bool × List (List Nat))
  | [], ok, refs, out => .ok (refs, ok, out)
  | idx :: rest, ok, refs, out =>
    match refCmdStep default_branch refs ok idx with
    | .panic => .panic
    | .error e => .error e
    | .ok (refs', ok') =>
      let out' := if ok' then out ++ [okLine sidebend idx.ref_name] else out
      refLoop default_branch sidebend rest ok' refs' out'

/-- Source `ReceivePackTransaction::process_receive_pack`: decode `pack_size`
objects, resolve ref-deltas within 20 rounds, send `unpack ok`, commit the
transaction (the Mongo session commit is modelled as succeeding), run the
ref-command loop, and close with `bend_pkt_flush` and an empty send.  The
result carries the committed store, the final refs state, and every byte
string sent on the callback. -/
def ReceivePackTransaction.process_receive_pack (ext : ExternalFns)
    (default_branch : List Nat) (hash_len : Nat)
    (ref_upload : List ReceiveCommand) (capabilities : List GitCapability)
    (pack_size : Nat) (stream : List Nat) (odb0 : OdbState)
    (refs0 : List RefItem) :
    POutcome (OdbState × List RefItem × List (List Nat)) :=
  match phaseA ext hash_len pack_size stream 0 odb0 [] [] [] with
  | .error e => .error e
  | .panic => .panic
  | .ok (odb1, resolved, ref_delta, out1) =>
    let ref_total := ref_delta.length
    let sidebend := capabilities.contains .SideBand ||
                    capabilities.contains .SideBand64k
    match resolveLoop ext sidebend ref_total 20 ref_delta odb1 resolved out1 with
    | .error e => .error e
    | .panic => .panic
    | .ok (odb2, _resolved2, unresolved, out2) =>
      if ! unresolved.isEmpty then .error .MissingBaseObject
      else
        let out3 := out2 ++ [unpackOkPkt]
        match refLoop default_branch sidebend ref_upload false refs0 out3 with
        | .error e => .error e
        | .panic => .panic
        | .ok (refs', _okF, out4) =>
          .ok (odb2, refs', out4 ++ [bend_pkt_flush, []])

/-- Message list of a successful receive-pack run. -/
def receiveOutMsgs :
    POutcome (OdbState × List RefItem × List (List Nat)) →
    Option (List (List Nat))
  | .ok (_, _, out) => some out
  | _ => none

/-- Final refs state of a successful receive-pack run. -/
def receiveRefs :
    POutcome (OdbState × List RefItem × List (List Nat)) → Option (List RefItem)
  | .ok (_, refs, _) => some refs
  | _ => none

/-- Final object store of a successful receive-pack run. -/
def receiveOdb :
    POutcome (OdbState × List RefItem × List (List Nat)) → Option OdbState
  | .ok (odb, _, _) => some odb
  | _ => none

/-- Source `get_value_refs` read against the refs state of a run. -/
def runGetValueRefs (r : POutcome (OdbState × List RefItem × List (List Nat)))
    (name : List Nat) : Option (Except GitInnerError Hash) :=
  (receiveRefs r).map (fun st => MongoRefsManager.get_value_refs st name)

/-- Source `has_<any>` probe against the object store of a run. -/
def runHasAny (r : POutcome (OdbState × List RefItem × List (List Nat)))
    (h : Hash) : Option Bool :=
  (receiveOdb r).map (fun odb => odb.hasAny h)

/-- Concrete `ExternalFns` whose members are never reached by the
empty-pack runs below. -/
def extStub : ExternalFns :=
  { inflate := fun _ => .error .ZlibError,
    hashRaw := fun _ => [],
    commitData := fun _ => [],
    tagData := fun _ => [],
    progressLine := fun _ _ _ => [] }

/-- A nonzero 20-byte hash used in concrete receive-pack runs. -/
def h1cex : Hash := List.replicate 19 0 ++ [1]

/-- A second nonzero 20-byte hash. -/
def h2cex : Hash := List.replicate 19 0 ++ [2]

/-- Create command for `refs/heads/x` with new hash `h1cex`. -/
def createCmdX : ReceiveCommand :=
  { old := Hash.zero20, new := h1cex, ref_name := str2bytes "refs/heads/x" }

/-- Update command (old and new both nonzero) for `refs/heads/y`. -/
def updateCmdY : ReceiveCommand :=
  { old := h1cex, new := h2cex, ref_name := str2bytes "refs/heads/y" }

/-- Create command for `refs/heads/a`. -/
def createCmdA : ReceiveCommand :=
  { old := Hash.zero20, new := h1cex, ref_name := str2bytes "refs/heads/a" }

/-- Delete command (new hash zero) for `refs/heads/b`. -/
def deleteCmdB : ReceiveCommand :=
  { old := h1cex, new := Hash.zero20, ref_name := str2bytes "refs/heads/b" }

/-!
Upload-pack: v1 negotiation (`src/transaction/upload/upload_pack.rs`) and
pack emission (`src/transaction/upload/encode_pack.rs`).
-/

/-- Source `UploadCommandType` (`src/transaction/upload/command.rs`); `RefPrefix`
appears here as `RefPfx`. -/
inductive UploadCommandType where
  | Want (h : Hash)
  | Have (h : Hash)
  | Done
  | Shallow (h : Hash)
  | Deepen (n : Int)
  | Capabilities (caps : List GitCapability)
  | Flush
  | Command (s : List Nat)
  | Agent (s : List Nat)
  | Symrefs
  | Unborn
  | RefPfx (s : List Nat)
  | ObjectFormat (s : List Nat)
  | Peel
  | ThinPack
  | OfsDelta
  deriving Repr, DecidableEq

/-- The fields of `UploadPackTransaction` the v1 negotiation loop touches
(`have` is a Lean keyword, hence `have_`). -/
structure UploadPackState where
  want : List Hash
  have_ : List Hash
  shallow : List Hash
  depth : Option Nat
  sideband : Bool
  thin : Bool
  no_progress : Bool
  no_done : Bool
  include_tag : Bool
  capabilities : List GitCapability
  deriving Repr, DecidableEq

/-- Fresh `UploadPackTransaction` state. -/
def UploadPackState.init : UploadPackState :=
  { want := [], have_ := [], shallow := [], depth := none, sideband := false,
    thin := false, no_progress := false, no_done := false, include_tag := false,
    capabilities := [] }

/-- The `ACK <hash>\n` pkt-line: `format!("{:04x}{}", msg.len() + 4, msg)`
with the hash displayed as lowercase hex. -/
def ackPkt (h : Hash) : List Nat :=
  let ack_msg := str2bytes "ACK " ++ hexEncode h ++ [10]
  hex04 (ack_msg.length + 4) ++ ack_msg

/-- The `NAK\n` pkt-line. -/
def nakPkt : List Nat :=
  let nak_msg := str2bytes "NAK" ++ [10]
  hex04 (nak_msg.length + 4) ++ nak_msg

/-- The per-capability flag wiring of the `Capabilities` arm. -/
def applyCapability (st : UploadPackState) (c : GitCapability) : UploadPackState :=
  let st' :=
    if c = .SideBand then { st with sideband := true }
    else if c = .ThinPack then { st with thin := true }
    else if c = .NoProgress then { st with no_progress := true }
    else if c = .NoDone then { st with no_done := true }
    else if c = .IncludeTag then { st with include_tag := true }
    else st
  { st' with capabilities := st'.capabilities ++ [c] }

/-- The `Capabilities` arm folds the flag wiring over the received list. -/
def applyCapabilities (st : UploadPackState) (caps : List GitCapability) :
    UploadPackState :=
  caps.foldl applyCapability st

/-- The v1 command loop of `Transaction::upload_pack` (lines 64-115): `want`
accumulates, each `have` whose hash any `has_<kind>` probe recognizes is
acknowledged with `ACK <hash>\n` and recorded in `request.have`, `done`
breaks (emitting `NAK\n` first when no common base was found), everything
else falls through.  The four probes are the repository ODB `has_*` calls. -/
def upload_pack_loop (hasCommitF hasTreeF hasBlobF hasTagF : Hash → Bool) :
    List UploadCommandType → UploadPackState → Bool → List (List Nat) →
    (UploadPackState × Bool × List (List Nat))
  | [], st, found_common, out => (st, found_common, out)
  | cmd :: rest, st, found_common, out =>
    match cmd with
    | .Want h =>
      upload_pack_loop hasCommitF hasTreeF hasBlobF hasTagF rest
        { st with want := st.want ++ [h] } found_common out
    | .Have h =>
      let has_object := hasCommitF h || hasTreeF h || hasBlobF h || hasTagF h
      if has_object then
        upload_pack_loop hasCommitF hasTreeF hasBlobF hasTagF rest
          { st with have_ := st.have_ ++ [h] } true (out ++ [ackPkt h])
      else
        upload_pack_loop hasCommitF hasTreeF hasBlobF hasTagF rest st found_common out
    | .Shallow h =>
      upload_pack_loop hasCommitF hasTreeF hasBlobF hasTagF rest
        { st with shallow := st.shallow ++ [h] } found_common out
    | .Deepen d =>
      upload_pack_loop hasCommitF hasTreeF hasBlobF hasTagF rest
        { st with depth := some ((d % (2 ^ 32 : Int)).toNat) } found_common out
    | .Capabilities caps =>
      upload_pack_loop hasCommitF hasTreeF hasBlobF hasTagF rest
        (applyCapabilities st caps) found_common out
    | .Done =>
      if ! found_common then (st, found_common, out ++ [nakPkt])
      else (st, found_common, out)
    | _ =>
      upload_pack_loop hasCommitF hasTreeF hasBlobF hasTagF rest st found_common out

/-- Source `Sha::update` of both digest wrappers (`src/sha/sha1.rs`,
`src/sha/sha256.rs`): append to the internal buffer; `finalize` digests the
whole buffer with the external crate, abstracted as a parameter `H`. -/
def shaUpdate (buffer : List Nat) (data : List Nat) : List Nat :=
  buffer ++ data

/-- Source `BufMut::put_u32` big-endian bytes. -/
def u32be (n : Nat) : List Nat :=
  [n / 2 ^ 24 % 256, n / 2 ^ 16 % 256, n / 2 ^ 8 % 256, n % 256]

/-- The 12-byte segment header: `"PACK"`, version 2, object count. -/
def packHeaderBytes (count : Nat) : List Nat :=
  str2bytes "PACK" ++ u32be 2 ++ u32be count

/-- Source `PACK_HEADER_LEN`. -/
def PACK_HEADER_LEN : Nat := 12

/-- The inner gathering `while` of `upload_pack_encode`: take compressed
objects while the size estimate stays within the target (the source constant
`TARGET_PACK_BYTES` is `usize::MAX`, kept here as a parameter); a segment
never breaks before its first object, so the
`segment_objects == 0 && pos < total` safety branch after the loop is dead
code and is not modelled.  The returned remainder carries its length bound
for termination. -/
def collectSegment (target : Nat) :
    Nat → List (List Nat) → (l : List (List Nat)) →
    (List (List Nat) × { r : List (List Nat) // r.length ≤ l.length } × Nat)
  | seg_est, acc, [] => (acc, ⟨[], Nat.le_refl _⟩, seg_est)
  | seg_est, acc, b :: rest =>
    if acc.length > 0 ∧ seg_est + b.length > target then
      (acc, ⟨b :: rest, Nat.le_refl _⟩, seg_est)
    else
      match collectSegment target (seg_est + b.length) (acc ++ [b]) rest with
      | (taken, ⟨r, hr⟩, est) => (taken, ⟨r, hr.trans (Nat.le_succ _)⟩, est)

/-- The outer `while pos < total` of `upload_pack_encode`, as the list of
object groups that become segments.  The gathering loop always takes the
first object of a segment (its break condition requires a nonempty segment),
so that first iteration is unrolled here for termination. -/
def segmentLists (target : Nat) : List (List Nat) → List (List (List Nat))
  | [] => []
  | b :: rest =>
    match collectSegment target (PACK_HEADER_LEN + b.length) [b] rest with
    | (taken, ⟨remaining, hrem⟩, _) => taken :: segmentLists target remaining
termination_by l => l.length
decreasing_by
  simp only [List.length_cons]
  exact Nat.lt_succ_of_le hrem

/-- One pack segment, built exactly as the source builds `seg_buf`: the
header, then each compressed object appended while also fed to the running
hasher (whose buffer began with the header), then the finalize digest. -/
def mkSegment (H : List Nat → List Nat) (taken : List (List Nat)) : List Nat :=
  let header := packHeaderBytes taken.length
  let hashBuf := taken.foldl shaUpdate (shaUpdate [] header)
  (taken.foldl (fun sb b => sb ++ b) header) ++ H hashBuf

/-- The raw segment byte strings `upload_pack_encode` emits (before the
optional side-band framing). -/
def upload_pack_segments (H : List Nat → List Nat) (target : Nat)
    (compressed : List (List Nat)) : List (List Nat) :=
  (segmentLists target compressed).map (mkSegment H)

/-- Concrete CRLF-separated commit bytes used to witness C3. -/
def c3cex : List Nat :=
  str2bytes "tree 0000000000000000000000000000000000000001\r\nauthor A <a@b> 1 +0000\r\ncommitter A <a@b> 1 +0000\r\n\r\nhi"

/-- Concrete `has_commit` probe recognizing only `h1cex`, for the C9
witness. -/
def hasOnlyH1 : Hash → Bool := fun h => decide (h = h1cex)

/-- Concrete probe recognizing nothing. -/
def hasNone9 : Hash → Bool := fun _ => false

/-!
Theorems.  Everything below is a lemma or a claim theorem about the
definitions above.
-/

theorem stripPfx_append (p b : List Nat) : stripPfx p (p ++ b) = some b := by
  induction p with
  | nil => rfl
  | cons c cs ih => simp [stripPfx, ih]

theorem applyCopyInsertLoop_no_panic (base reader result : List Nat)
    (hok : RefDelta.instructionsInBounds base.length reader = true) :
    RefDelta.applyCopyInsertLoop base reader result ≠ POutcome.panic := by
  induction reader, result using RefDelta.applyCopyInsertLoop.induct base with
  | case1 res => rw [RefDelta.applyCopyInsertLoop]; simp
  | case2 res opcode rest h80 hop =>
      rw [RefDelta.instructionsInBounds] at hok
      simp only [if_pos h80, hop] at hok
      exact absurd hok Bool.false_ne_true
  | case3 res opcode rest h80 co cs0 rest' hle hop csz hbound ih =>
      rw [RefDelta.instructionsInBounds] at hok
      rw [RefDelta.applyCopyInsertLoop]
      simp only [if_pos h80, hop, Bool.and_eq_true, decide_eq_true_eq] at hok ⊢
      rw [if_pos hok.1]
      exact ih hok.2
  | case4 res opcode rest h80 co cs0 rest' hle hop csz hbound =>
      rw [RefDelta.instructionsInBounds] at hok
      simp only [if_pos h80, hop, Bool.and_eq_true, decide_eq_true_eq] at hok
      exact absurd hok.1 hbound
  | case5 res opcode rest h80 hnz hlen ih =>
      rw [RefDelta.instructionsInBounds] at hok
      rw [RefDelta.applyCopyInsertLoop]
      simp only [if_neg h80, if_pos hnz, if_pos hlen, Bool.and_eq_true,
        decide_eq_true_eq] at hok ⊢
      exact ih hok.2
  | case6 res opcode rest h80 hnz hlen =>
      rw [RefDelta.instructionsInBounds] at hok
      simp only [if_neg h80, if_pos hnz, Bool.and_eq_true, decide_eq_true_eq] at hok
      exact absurd hok.1 hlen
  | case7 res opcode rest h80 hz =>
      rw [RefDelta.applyCopyInsertLoop]
      simp only [if_neg h80, if_neg hz]
      simp

/-- C2 counterexample: on base `"a"` (one byte) and the delta
`[1, 1, 0x80]` (base size 1, result size 1, then a copy opcode with no
operand bytes, so offset 0 and size 0x10000), `apply_git_delta` hits the
unchecked slice `base[0..0x10000]` and panics instead of returning an
error. -/
theorem apply_git_delta_oob_copy_panics :
    RefDelta.apply_git_delta [97] [1, 1, 128] = .panic := by
  simp [RefDelta.apply_git_delta, RefDelta.read_varint, RefDelta.applyCopyInsertLoop,
    RefDelta.readCopyOperands, RefDelta.readOpByte,
    show (1 &&& 128 : Nat) = 0 from by decide,
    show (1 &&& 127 : Nat) = 1 from by decide,
    show (128 &&& 128 : Nat) = 128 from by decide,
    show (128 &&& 1 : Nat) = 0 from by decide,
    show (128 &&& 2 : Nat) = 0 from by decide,
    show (128 &&& 4 : Nat) = 0 from by decide,
    show (128 &&& 8 : Nat) = 0 from by decide,
    show (128 &&& 16 : Nat) = 0 from by decide,
    show (128 &&& 32 : Nat) = 0 from by decide,
    show (128 &&& 64 : Nat) = 0 from by decide]

/-- C2 amended: `apply_git_delta` terminates on every input and never mutates
the base (the embedding is purely functional), and it returns `Ok` or a named
error for every delta whose copy/insert operands are fully present and whose
copy ranges lie within the base; a copy range beyond `base.len()` or
truncated operands instead panic (see the counterexample). -/
theorem apply_git_delta_inbounds_total (base delta : List Nat)
    (h : RefDelta.deltaOperandsOk base delta = true) :
    RefDelta.apply_git_delta base delta ≠ POutcome.panic := by
  unfold RefDelta.deltaOperandsOk at h
  unfold RefDelta.apply_git_delta
  cases h1 : RefDelta.read_varint delta 0 0 with
  | error e => simp
  | ok p =>
    obtain ⟨bs, r1⟩ := p
    rw [h1] at h
    dsimp only at h ⊢
    cases h2 : RefDelta.read_varint r1 0 0 with
    | error e => simp
    | ok q =>
      obtain ⟨rs, dr⟩ := q
      rw [h2] at h
      dsimp only at h ⊢
      by_cases hbs : bs = base.length
      · subst hbs
        rw [if_neg (by simp)]
        split
        · split <;> simp
        · simp
        · rename_i heq
          exact absurd heq (applyCopyInsertLoop_no_panic base dr [] h)
      · rw [if_pos hbs]
        simp

/-- Witness for C2's amended statement: the in-bounds insert-only delta
`[0, 1, 1, 65]` against the empty base is well-formed and does not panic. -/
theorem apply_git_delta_inbounds_total_witness :
    RefDelta.deltaOperandsOk [] [0, 1, 1, 65] = true ∧
    RefDelta.apply_git_delta [] [0, 1, 1, 65] ≠ POutcome.panic := by
  have hwf : RefDelta.deltaOperandsOk [] [0, 1, 1, 65] = true := by
    simp [RefDelta.deltaOperandsOk, RefDelta.read_varint, RefDelta.instructionsInBounds,
      show (0 &&& 127 : Nat) = 0 from by decide,
      show (0 &&& 128 : Nat) = 0 from by decide,
      show (1 &&& 127 : Nat) = 1 from by decide,
      show (1 &&& 128 : Nat) = 0 from by decide]
  exact ⟨hwf, apply_git_delta_inbounds_total [] [0, 1, 1, 65] hwf⟩

/-- C8: for every ref name of the form `refs/heads/` + b where b is the
repository's configured default branch, `del_refs` fails with
`DefaultBranchCannotBeDeleted`; since the error is returned before
`delete_one` runs, the refs store is left untouched. -/
theorem del_refs_default_branch_rejected (default_branch : List Nat)
    (st : List RefItem) :
    MongoRefsManager.del_refs default_branch st (refsHeadsPfx ++ default_branch)
      = .error .DefaultBranchCannotBeDeleted := by
  simp [MongoRefsManager.del_refs, stripPfx_append]

/-- C10: `create_refs` and `del_refs` unwrap `strip_prefix("refs/heads/")`
unconditionally, so they panic on every ref name that does not start with
`refs/heads/` (tags, HEAD, ...), and only names under `refs/heads/` avoid the
panic. -/
theorem create_del_refs_panic_outside_heads (default_branch : List Nat)
    (st : List RefItem) (name : List Nat) (v : Hash) :
    (stripPfx refsHeadsPfx name = none →
      MongoRefsManager.create_refs default_branch st name v = .panic ∧
      MongoRefsManager.del_refs default_branch st name = .panic) ∧
    (∀ s, stripPfx refsHeadsPfx name = some s →
      MongoRefsManager.create_refs default_branch st name v ≠ .panic ∧
      MongoRefsManager.del_refs default_branch st name ≠ .panic) := by
  constructor
  · intro h
    constructor
    · simp [MongoRefsManager.create_refs, h]
    · simp [MongoRefsManager.del_refs, h]
  · intro s h
    constructor
    · simp [MongoRefsManager.create_refs, h]
    · simp only [MongoRefsManager.del_refs, h]
      split <;> simp

/-- Witness for C10 at the concrete tag name `refs/tags/v1` (a name
receive-pack passes through for pushed tags) and at `HEAD`. -/
theorem create_del_refs_panic_outside_heads_witness :
    MongoRefsManager.create_refs (str2bytes "main") [] (str2bytes "refs/tags/v1")
        Hash.zero20 = .panic ∧
    MongoRefsManager.del_refs (str2bytes "main") [] (str2bytes "refs/tags/v1")
        = .panic :=
  (create_del_refs_panic_outside_heads (str2bytes "main") [] (str2bytes "refs/tags/v1")
    Hash.zero20).1 (by decide)

/-- C5 counterexample: a well-formed 12-byte header with pack version 3 is not
processed and produces no error at all — `parse_receive_head` silently
returns `Ok` (never `UnsupportedVersion`) — and a header with version 0 is
accepted and processed rather than rejected. -/
theorem parse_receive_head_version_counterexample :
    Transaction.parse_receive_head
        [80, 65, 67, 75, 0, 0, 0, 3, 0, 0, 0, 0] = .ok .skip ∧
    Transaction.parse_receive_head
        [80, 65, 67, 75, 0, 0, 0, 0, 0, 0, 0, 2]
      = .ok (.process .V0 2) := by
  constructor <;> decide

/-- C5 amended: on a 12-byte header the engine proceeds to decode objects for
big-endian version values 0, 1 and 2, and for every other version value
(including 3) it returns `Ok` without decoding anything; the
`UnsupportedVersion` error is never produced. -/
theorem parse_receive_head_version (head : List Nat) (h12 : head.length = 12) :
    (be32at head 4 = 0 ∨ be32at head 4 = 1 ∨ be32at head 4 = 2 →
      Transaction.parse_receive_head head
        = .ok (.process (GitProtoVersion.from_u32 (be32at head 4)) (be32at head 8))) ∧
    (¬(be32at head 4 = 0 ∨ be32at head 4 = 1 ∨ be32at head 4 = 2) →
      Transaction.parse_receive_head head = .ok .skip) := by
  constructor
  · rintro (hv | hv | hv) <;>
      simp [Transaction.parse_receive_head, h12, hv, GitProtoVersion.from_u32]
  · intro hv
    rcases hn : be32at head 4 with _ | n
    · exact absurd (Or.inl hn) hv
    rcases n with _ | n
    · exact absurd (Or.inr (Or.inl hn)) hv
    rcases n with _ | n
    · exact absurd (Or.inr (Or.inr hn)) hv
    simp [Transaction.parse_receive_head, h12, hn, GitProtoVersion.from_u32]

/-- Witness for C5's amended statement at a version-2 header with object
count 7. -/
theorem parse_receive_head_version_witness :
    Transaction.parse_receive_head
        [80, 65, 67, 75, 0, 0, 0, 2, 0, 0, 0, 7]
      = .ok (.process .V2 7) := by
  have h := (parse_receive_head_version
      [80, 65, 67, 75, 0, 0, 0, 2, 0, 0, 0, 7] (by decide)).1
      (by decide)
  simpa using h


/-- C3: for every byte string the commit parser accepts, the hash stored in
the returned `Commit` is the digest of `"commit " ++ decimal(len(b)) ++ NUL ++
b` over the original bytes `b`; the CRLF normalization is parse-only and never
reaches the hash. -/
theorem commit_parse_hash_over_original_bytes (H : List Nat → Hash)
    (input : List Nat) (c : Commit) (hc : Commit.parse H input = .ok c) :
    c.hash = H (commitHashInput input) := by
  unfold Commit.parse at hc
  cases hb : Commit.parseBody input with
  | ok b =>
    rw [hb] at hc
    dsimp only at hc
    cases hc
    rfl
  | error e => rw [hb] at hc; simp at hc
  | panic => rw [hb] at hc; simp at hc

/-- Witness for C3 at a concrete commit containing CRLF line endings, with
the digest instantiated to the identity function: the parse succeeds and the
stored hash is over the original (un-normalized) bytes. -/
theorem commit_parse_hash_over_original_bytes_witness :
    (Commit.parse (fun l => l) c3cex).isOk = true ∧
    commitHashOf (Commit.parse (fun l => l) c3cex) = some (commitHashInput c3cex) := by
  constructor
  · decide
  · cases hc : Commit.parse (fun l => l) c3cex with
    | ok c =>
      simp only [commitHashOf]
      rw [commit_parse_hash_over_original_bytes (fun l => l) c3cex c hc]
    | error e =>
      have hok : (Commit.parse (fun l => l) c3cex).isOk = true := by decide
      rw [hc] at hok
      exact absurd hok (by simp [POutcome.isOk])
    | panic =>
      have hok : (Commit.parse (fun l => l) c3cex).isOk = true := by decide
      rw [hc] at hok
      exact absurd hok (by simp [POutcome.isOk])

/-- C6 counterexample: a `Tree` that stores a file `b` before a file `a`
serializes in exactly that stored order, not in the canonical Git ordering —
`get_data` performs no sorting. -/
theorem tree_get_data_not_canonical_counterexample :
    Tree.get_data c6cex ≠ canonicalTreeData c6cex := by decide

/-- C6 amended: the tree serializer emits the entries in the order stored in
`tree_items` (no reordering), so its output is canonical exactly when the
stored entries are already sorted by the canonical key (entry name with a
virtual `/` appended to subtrees). -/
theorem tree_get_data_canonical_when_sorted (t : Tree)
    (hsorted : List.Sorted treeKeyLe t.tree_items) :
    Tree.get_data t = canonicalTreeData t := by
  unfold Tree.get_data canonicalTreeData
  rw [List.Sorted.insertionSort_eq hsorted]

/-- Witness for C6's amended statement: a tree holding a file `foo` and then
a subtree `foo` is canonically sorted (the file sorts first), and the
serializer output agrees with the canonical serialization. -/
theorem tree_get_data_canonical_when_sorted_witness :
    Tree.get_data c6wit = canonicalTreeData c6wit :=
  tree_get_data_canonical_when_sorted c6wit (by decide)

theorem findRef_append_ne (refs : List RefItem) (x : RefItem) (name : List Nat)
    (hx : x.name ≠ name) : findRef (refs ++ [x]) name = findRef refs name := by
  unfold findRef
  rw [List.find?_append]
  cases hf : refs.find? (fun r => r.name = name) with
  | some r => simp
  | none => simp [List.find?, hx]

theorem findRef_append_fresh (refs : List RefItem) (x : RefItem) (name : List Nat)
    (hfresh : ∀ r ∈ refs, r.name ≠ name) (hx : x.name = name) :
    findRef (refs ++ [x]) name = some x := by
  unfold findRef
  rw [List.find?_append]
  have hnone : refs.find? (fun r => r.name = name) = none := by
    rw [List.find?_eq_none]
    intro r hr
    simpa using hfresh r hr
  rw [hnone]
  simp [List.find?, hx]

theorem findRef_updateFirst_ne (refs : List RefItem) (o : List Nat) (v : Hash)
    (name : List Nat) (hne : o ≠ name) :
    findRef (updateFirstRef refs o v) name = findRef refs name := by
  induction refs with
  | nil => rfl
  | cons r rest ih =>
    unfold updateFirstRef
    by_cases hr : r.name = o
    · rw [if_pos hr]
      unfold findRef
      have hrn : ¬ r.name = name := by rw [hr]; exact hne
      simp [List.find?, hrn]
    · rw [if_neg hr]
      unfold findRef at ih ⊢
      simp only [List.find?]
      by_cases hrn : r.name = name
      · simp [hrn]
      · simp [hrn, ih]

theorem mem_updateFirstRef_name (refs : List RefItem) (o : List Nat) (v : Hash)
    (r' : RefItem) (hm : r' ∈ updateFirstRef refs o v) :
    ∃ r ∈ refs, r'.name = r.name := by
  induction refs with
  | nil => cases hm
  | cons r rest ih =>
    unfold updateFirstRef at hm
    by_cases hr : r.name = o
    · rw [if_pos hr] at hm
      rcases List.mem_cons.mp hm with h | h
      · exact ⟨r, List.mem_cons_self r rest, by rw [h]⟩
      · exact ⟨r', List.mem_cons_of_mem r h, rfl⟩
    · rw [if_neg hr] at hm
      rcases List.mem_cons.mp hm with h | h
      · exact ⟨r, List.mem_cons_self r rest, by rw [h]⟩
      · obtain ⟨r0, hr0, hn⟩ := ih h
        exact ⟨r0, List.mem_cons_of_mem r hr0, hn⟩

theorem refCmdStep_findRef_ne (db : List Nat) (refs : List RefItem) (ok : Bool)
    (idx : ReceiveCommand) (refs1 : List RefItem) (ok1 : Bool)
    (h : refCmdStep db refs ok idx = .ok (refs1, ok1))
    (name : List Nat) (hne : idx.ref_name ≠ name) :
    findRef refs1 name = findRef refs name := by
  unfold refCmdStep at h
  by_cases hc : idx.is_create = true
  · rw [if_pos hc] at h
    unfold MongoRefsManager.create_refs at h
    cases hs : stripPfx refsHeadsPfx idx.ref_name with
    | none => rw [hs] at h; simp at h
    | some stripped =>
      rw [hs] at h
      dsimp only at h
      cases h
      exact findRef_append_ne refs _ name hne
  · rw [if_neg hc] at h
    by_cases hu : idx.is_update = true
    · rw [if_pos hu] at h
      unfold MongoRefsManager.update_refs at h
      cases h
      exact findRef_updateFirst_ne refs idx.ref_name idx.new name hne
    · rw [if_neg hu] at h
      cases h
      rfl

theorem refCmdStep_fresh (db : List Nat) (refs : List RefItem) (ok : Bool)
    (idx : ReceiveCommand) (refs1 : List RefItem) (ok1 : Bool)
    (h : refCmdStep db refs ok idx = .ok (refs1, ok1))
    (name : List Nat) (hne : idx.ref_name ≠ name)
    (hfresh : ∀ r ∈ refs, r.name ≠ name) :
    ∀ r ∈ refs1, r.name ≠ name := by
  unfold refCmdStep at h
  by_cases hc : idx.is_create = true
  · rw [if_pos hc] at h
    unfold MongoRefsManager.create_refs at h
    cases hs : stripPfx refsHeadsPfx idx.ref_name with
    | none => rw [hs] at h; simp at h
    | some stripped =>
      rw [hs] at h
      dsimp only at h
      cases h
      intro r hr
      rcases List.mem_append.mp hr with hm | hm
      · exact hfresh r hm
      · rcases List.mem_singleton.mp hm with rfl
        exact hne
  · rw [if_neg hc] at h
    by_cases hu : idx.is_update = true
    · rw [if_pos hu] at h
      unfold MongoRefsManager.update_refs at h
      cases h
      intro r hr
      obtain ⟨r0, hr0, hn⟩ := mem_updateFirstRef_name refs idx.ref_name idx.new r hr
      rw [hn]
      exact hfresh r0 hr0
    · rw [if_neg hu] at h
      cases h
      exact hfresh

theorem refCmdStep_create_sets (db : List Nat) (refs : List RefItem) (ok : Bool)
    (idx : ReceiveCommand) (refs1 : List RefItem) (ok1 : Bool)
    (h : refCmdStep db refs ok idx = .ok (refs1, ok1))
    (hcr : idx.is_create = true)
    (hfresh : ∀ r ∈ refs, r.name ≠ idx.ref_name) :
    MongoRefsManager.get_value_refs refs1 idx.ref_name = .ok idx.new := by
  unfold refCmdStep at h
  rw [if_pos hcr] at h
  unfold MongoRefsManager.create_refs at h
  cases hs : stripPfx refsHeadsPfx idx.ref_name with
  | none => rw [hs] at h; simp at h
  | some stripped =>
    rw [hs] at h
    dsimp only at h
    cases h
    unfold MongoRefsManager.get_value_refs
    rw [findRef_append_fresh refs _ idx.ref_name hfresh rfl]

theorem refLoop_preserves_findRef (db : List Nat) (sb : Bool) :
    ∀ (cmds : List ReceiveCommand) (ok : Bool) (refs : List RefItem)
      (out : List (List Nat)) (refs' : List RefItem) (okF : Bool)
      (out' : List (List Nat)),
      refLoop db sb cmds ok refs out = .ok (refs', okF, out') →
      ∀ name, (∀ c ∈ cmds, c.ref_name ≠ name) →
      findRef refs' name = findRef refs name := by
  intro cmds
  induction cmds with
  | nil =>
    intro ok refs out refs' okF out' h name hn
    unfold refLoop at h
    cases h
    rfl
  | cons idx rest ih =>
    intro ok refs out refs' okF out' h name hn
    unfold refLoop at h
    cases hs : refCmdStep db refs ok idx with
    | panic => rw [hs] at h; simp at h
    | error e => rw [hs] at h; simp at h
    | ok p =>
      obtain ⟨refs1, ok1⟩ := p
      rw [hs] at h
      dsimp only at h
      have h1 := ih ok1 refs1 _ refs' okF out' h name
        (fun c hc => hn c (List.mem_cons_of_mem idx hc))
      rw [h1]
      exact refCmdStep_findRef_ne db refs ok idx refs1 ok1 hs name
        (hn idx (List.mem_cons_self idx rest))

theorem refLoop_fresh_create (db : List Nat) (sb : Bool) :
    ∀ (cmds : List ReceiveCommand) (ok : Bool) (refs : List RefItem)
      (out : List (List Nat)) (refs' : List RefItem) (okF : Bool)
      (out' : List (List Nat)),
      refLoop db sb cmds ok refs out = .ok (refs', okF, out') →
      ∀ cmd ∈ cmds, cmd.is_create = true →
        (∀ r ∈ refs, r.name ≠ cmd.ref_name) →
        (cmds.map ReceiveCommand.ref_name).count cmd.ref_name = 1 →
        MongoRefsManager.get_value_refs refs' cmd.ref_name = .ok cmd.new := by
  intro cmds
  induction cmds with
  | nil =>
    intro ok refs out refs' okF out' h cmd hmem
    cases hmem
  | cons idx rest ih =>
    intro ok refs out refs' okF out' h cmd hmem hcr hfresh hcount
    unfold refLoop at h
    cases hs : refCmdStep db refs ok idx with
    | panic => rw [hs] at h; simp at h
    | error e => rw [hs] at h; simp at h
    | ok p =>
      obtain ⟨refs1, ok1⟩ := p
      rw [hs] at h
      dsimp only at h
      rw [List.map_cons, List.count_cons] at hcount
      rcases List.mem_cons.mp hmem with heq | hmem'
      · subst heq
        rw [if_pos (by simp)] at hcount
        have h0 : (rest.map ReceiveCommand.ref_name).count cmd.ref_name = 0 := by omega
        have hnotin := List.count_eq_zero.mp h0
        have hrest : ∀ c ∈ rest, c.ref_name ≠ cmd.ref_name := by
          intro c hc hcn
          exact hnotin (hcn ▸ List.mem_map_of_mem ReceiveCommand.ref_name hc)
        have hset := refCmdStep_create_sets db refs ok cmd refs1 ok1 hs hcr hfresh
        have hpres := refLoop_preserves_findRef db sb rest ok1 refs1 _ refs' okF out' h
          cmd.ref_name hrest
        unfold MongoRefsManager.get_value_refs at hset ⊢
        rw [hpres]
        exact hset
      · by_cases hne : idx.ref_name = cmd.ref_name
        · rw [if_pos (by simp [hne])] at hcount
          have h0 : (rest.map ReceiveCommand.ref_name).count cmd.ref_name = 0 := by omega
          exact absurd (List.mem_map_of_mem ReceiveCommand.ref_name hmem')
            (List.count_eq_zero.mp h0)
        · rw [if_neg (by simp [hne])] at hcount
          have hfresh1 := refCmdStep_fresh db refs ok idx refs1 ok1 hs cmd.ref_name hne hfresh
          exact ih ok1 refs1 _ refs' okF out' h cmd hmem' hcr hfresh1 (by omega)

/-- C1 counterexample: a successful receive-pack does not guarantee the
claimed postcondition.  An empty pack with the single (non-delete) create
command `refs/heads/x = h1cex` completes with `Ok`, yet no `get_<kind>`
probe on `h1cex` can succeed — the object store holds nothing; and an empty
pack with the single (non-delete) update command for `refs/heads/y` on an
empty refs store also completes with `Ok` while `get_value_refs` afterwards
fails (the `update_one` matched no document). -/
theorem receive_pack_postcondition_counterexample :
    (ReceivePackTransaction.process_receive_pack extStub (str2bytes "main") 20
        [createCmdX] [] 0 [] OdbState.empty []).isOk = true ∧
    createCmdX.is_delete = false ∧
    runHasAny (ReceivePackTransaction.process_receive_pack extStub (str2bytes "main") 20
        [createCmdX] [] 0 [] OdbState.empty []) h1cex = some false ∧
    (ReceivePackTransaction.process_receive_pack extStub (str2bytes "main") 20
        [updateCmdY] [] 0 [] OdbState.empty []).isOk = true ∧
    updateCmdY.is_delete = false ∧
    runGetValueRefs (ReceivePackTransaction.process_receive_pack extStub (str2bytes "main")
        20 [updateCmdY] [] 0 [] OdbState.empty []) (str2bytes "refs/heads/y")
      = some (.error (.ObjectNotFound Hash.zero20)) := by
  refine ⟨by decide, by decide, by decide, by decide, by decide, by decide⟩

/-- C1 amended: when `process_receive_pack` returns `Ok`, every create
command (old hash zero) whose ref name is absent from the initial refs store
and whose name no other command of the request shares (its name occurs
exactly once among the commands' names — other commands may freely share
names among themselves) ends with `get_value_refs(ref) == new`.  Nothing
guarantees that the object named `new` exists in the ODB (no existence check
is made), and update commands on absent refs leave `get_value_refs`
failing — see the counterexample. -/
theorem receive_pack_fresh_create_sets_ref (ext : ExternalFns)
    (db : List Nat) (hash_len : Nat) (cmds : List ReceiveCommand)
    (caps : List GitCapability) (pack_size : Nat) (stream : List Nat)
    (odb0 : OdbState) (refs0 : List RefItem)
    (odb' : OdbState) (refs' : List RefItem) (out : List (List Nat))
    (h : ReceivePackTransaction.process_receive_pack ext db hash_len cmds caps
          pack_size stream odb0 refs0 = .ok (odb', refs', out))
    (cmd : ReceiveCommand) (hmem : cmd ∈ cmds)
    (hcr : cmd.is_create = true)
    (hfresh : ∀ r ∈ refs0, r.name ≠ cmd.ref_name)
    (hcount : (cmds.map ReceiveCommand.ref_name).count cmd.ref_name = 1) :
    MongoRefsManager.get_value_refs refs' cmd.ref_name = .ok cmd.new := by
  unfold ReceivePackTransaction.process_receive_pack at h
  cases hA : phaseA ext hash_len pack_size stream 0 odb0 [] [] [] with
  | error e => rw [hA] at h; simp at h
  | panic => rw [hA] at h; simp at h
  | ok pa =>
    obtain ⟨odb1, resolved, ref_delta, out1⟩ := pa
    rw [hA] at h
    dsimp only at h
    cases hB : resolveLoop ext
        (caps.contains GitCapability.SideBand || caps.contains GitCapability.SideBand64k)
        ref_delta.length 20 ref_delta odb1 resolved out1 with
    | error e => rw [hB] at h; simp at h
    | panic => rw [hB] at h; simp at h
    | ok pb =>
      obtain ⟨odb2, resolved2, unresolved, out2⟩ := pb
      rw [hB] at h
      dsimp only at h
      by_cases hu : unresolved.isEmpty
      · rw [hu] at h
        simp only [Bool.not_true] at h
        rw [if_neg (by simp)] at h
        cases hrl : refLoop db
            (caps.contains GitCapability.SideBand || caps.contains GitCapability.SideBand64k)
            cmds false refs0 (out2 ++ [unpackOkPkt]) with
        | error e => rw [hrl] at h; simp at h
        | panic => rw [hrl] at h; simp at h
        | ok pr =>
          obtain ⟨refs'', okF, out4⟩ := pr
          rw [hrl] at h
          dsimp only at h
          cases h
          exact refLoop_fresh_create db _ cmds false refs0 _ _ okF out4 hrl
            cmd hmem hcr hfresh hcount
      · rw [Bool.not_eq_true] at hu
        rw [hu] at h
        simp at h

/-- Witness for C1's amended statement: the create command for
`refs/heads/x` with new hash `h1cex`, run over an empty pack against empty
stores, leaves `get_value_refs` returning exactly `h1cex`. -/
theorem receive_pack_fresh_create_sets_ref_witness :
    runGetValueRefs (ReceivePackTransaction.process_receive_pack extStub
      (str2bytes "main") 20 [createCmdX] [] 0 [] OdbState.empty [])
      (str2bytes "refs/heads/x") = some (.ok h1cex) := by
  cases hr : ReceivePackTransaction.process_receive_pack extStub (str2bytes "main") 20
      [createCmdX] [] 0 [] OdbState.empty [] with
  | ok p =>
    obtain ⟨odb', refs', out⟩ := p
    have hv := receive_pack_fresh_create_sets_ref extStub (str2bytes "main") 20
      [createCmdX] [] 0 [] OdbState.empty [] odb' refs' out hr createCmdX
      (List.mem_singleton.mpr rfl) (by decide)
      (by intro r hr0; cases hr0) (by decide)
    simp only [runGetValueRefs, receiveRefs, Option.map]
    exact congrArg some hv
  | error e =>
    have hok : receiveRefs (ReceivePackTransaction.process_receive_pack extStub
        (str2bytes "main") 20 [createCmdX] [] 0 [] OdbState.empty []) ≠ none := by decide
    rw [hr] at hok
    simp [receiveRefs] at hok
  | panic =>
    have hok : receiveRefs (ReceivePackTransaction.process_receive_pack extStub
        (str2bytes "main") 20 [createCmdX] [] 0 [] OdbState.empty []) ≠ none := by decide
    rw [hr] at hok
    simp [receiveRefs] at hok

/-- C4 (code bug), evaluated at the failing input.  With the command list
`[create refs/heads/a, delete refs/heads/b]` over an empty pack, the delete
command performs no ref operation yet is reported `"ok refs/heads/b"`,
because the `ok` flag set by the first command lives outside the loop; and
with `[delete refs/heads/b]` alone the command gets no report line at all.
No code path emits an `"ng"` line. -/
theorem receive_pack_report_status_sticky_ok_eval :
    receiveOutMsgs (ReceivePackTransaction.process_receive_pack extStub
      (str2bytes "main") 20 [createCmdA, deleteCmdB] [] 0 [] OdbState.empty [])
      = some [unpackOkPkt, okLine false (str2bytes "refs/heads/a"),
              okLine false (str2bytes "refs/heads/b"), bend_pkt_flush, []] ∧
    receiveOutMsgs (ReceivePackTransaction.process_receive_pack extStub
      (str2bytes "main") 20 [deleteCmdB] [] 0 [] OdbState.empty [])
      = some [unpackOkPkt, bend_pkt_flush, []] := by
  constructor <;> decide


theorem foldl_append_join (l : List (List Nat)) :
    ∀ init : List Nat, l.foldl (fun sb b => sb ++ b) init = init ++ l.join := by
  induction l with
  | nil => intro init; simp
  | cons x xs ih => intro init; simp [ih, List.append_assoc]

theorem mkSegment_eq (H : List Nat → List Nat) (taken : List (List Nat)) :
    mkSegment H taken =
      (packHeaderBytes taken.length ++ taken.join) ++
        H (packHeaderBytes taken.length ++ taken.join) := by
  unfold mkSegment shaUpdate
  dsimp only
  rw [foldl_append_join, foldl_append_join]
  simp

/-- C7: every pack segment upload_pack_encode builds consists of the 12-byte
header followed by the per-object header+zlib payloads in emission order,
with the trailer equal to the digest of exactly those bytes, from `"PACK"`
(inclusive) through the last compressed object byte.  The digest `H` is the
repository hash (20 bytes for SHA-1, 32 for SHA-256); the `Sha` wrappers
buffer every `update` and digest the whole buffer at `finalize`, so the
trailer hashes precisely the emitted byte sequence. -/
theorem upload_pack_trailer_hashes_emitted_bytes (H : List Nat → List Nat) (target : Nat)
    (compressed : List (List Nat)) (seg : List Nat)
    (hmem : seg ∈ upload_pack_segments H target compressed) :
    ∃ taken : List (List Nat),
      seg = (packHeaderBytes taken.length ++ taken.join) ++
              H (packHeaderBytes taken.length ++ taken.join) := by
  unfold upload_pack_segments at hmem
  obtain ⟨taken, hmemT, rfl⟩ := List.mem_map.mp hmem
  exact ⟨taken, mkSegment_eq H taken⟩

/-- Witness for C7 at one compressed object `[7]` with a length-counting
digest. -/
theorem upload_pack_trailer_hashes_emitted_bytes_witness :
    ∃ taken : List (List Nat),
      mkSegment (fun l => [l.length]) [[7]] =
        (packHeaderBytes taken.length ++ taken.join) ++
          (fun l : List Nat => [l.length]) (packHeaderBytes taken.length ++ taken.join) := by
  refine upload_pack_trailer_hashes_emitted_bytes (fun l => [l.length]) 1000 [[7]] _ ?_
  simp [upload_pack_segments, segmentLists, collectSegment, PACK_HEADER_LEN]

theorem applyCapability_have (st : UploadPackState) (c : GitCapability) :
    (applyCapability st c).have_ = st.have_ := by
  unfold applyCapability
  dsimp only
  split_ifs <;> rfl

theorem applyCapabilities_have (st : UploadPackState) (caps : List GitCapability) :
    (applyCapabilities st caps).have_ = st.have_ := by
  unfold applyCapabilities
  induction caps generalizing st with
  | nil => rfl
  | cons c cs ih => rw [List.foldl_cons, ih, applyCapability_have]

theorem upload_pack_loop_out_mono (hc ht hb htg : Hash → Bool) :
    ∀ (cmds : List UploadCommandType) (st : UploadPackState) (fc : Bool)
      (out : List (List Nat)) (x : List Nat), x ∈ out →
      x ∈ (upload_pack_loop hc ht hb htg cmds st fc out).2.2 := by
  intro cmds
  induction cmds with
  | nil => intro st fc out x hx; exact hx
  | cons cmd rest ih =>
    intro st fc out x hx
    cases cmd with
    | Want h => exact ih _ _ _ x hx
    | Have h =>
      unfold upload_pack_loop
      dsimp only
      split
      · exact ih _ _ _ x (List.mem_append_left _ hx)
      · exact ih _ _ _ x hx
    | Done =>
      unfold upload_pack_loop
      dsimp only
      split
      · exact List.mem_append_left _ hx
      · exact hx
    | Shallow h => exact ih _ _ _ x hx
    | Deepen d => exact ih _ _ _ x hx
    | Capabilities caps => exact ih _ _ _ x hx
    | Flush => exact ih _ _ _ x hx
    | Command s => exact ih _ _ _ x hx
    | Agent s => exact ih _ _ _ x hx
    | Symrefs => exact ih _ _ _ x hx
    | Unborn => exact ih _ _ _ x hx
    | RefPfx s => exact ih _ _ _ x hx
    | ObjectFormat s => exact ih _ _ _ x hx
    | Peel => exact ih _ _ _ x hx
    | ThinPack => exact ih _ _ _ x hx
    | OfsDelta => exact ih _ _ _ x hx

theorem upload_pack_loop_have_mono (hc ht hb htg : Hash → Bool) :
    ∀ (cmds : List UploadCommandType) (st : UploadPackState) (fc : Bool)
      (out : List (List Nat)) (h : Hash), h ∈ st.have_ →
      h ∈ (upload_pack_loop hc ht hb htg cmds st fc out).1.have_ := by
  intro cmds
  induction cmds with
  | nil => intro st fc out h hx; exact hx
  | cons cmd rest ih =>
    intro st fc out h hx
    cases cmd with
    | Want h0 => exact ih _ _ _ h hx
    | Have h0 =>
      unfold upload_pack_loop
      dsimp only
      split
      · exact ih _ _ _ h (List.mem_append_left _ hx)
      · exact ih _ _ _ h hx
    | Done =>
      unfold upload_pack_loop
      dsimp only
      split
      · exact hx
      · exact hx
    | Shallow h0 => exact ih _ _ _ h hx
    | Deepen d => exact ih _ _ _ h hx
    | Capabilities caps =>
      refine ih _ _ _ h ?_
      rw [applyCapabilities_have]
      exact hx
    | Flush => exact ih _ _ _ h hx
    | Command s => exact ih _ _ _ h hx
    | Agent s => exact ih _ _ _ h hx
    | Symrefs => exact ih _ _ _ h hx
    | Unborn => exact ih _ _ _ h hx
    | RefPfx s => exact ih _ _ _ h hx
    | ObjectFormat s => exact ih _ _ _ h hx
    | Peel => exact ih _ _ _ h hx
    | ThinPack => exact ih _ _ _ h hx
    | OfsDelta => exact ih _ _ _ h hx

theorem upload_pack_loop_ack (hc ht hb htg : Hash → Bool) :
    ∀ (cmds : List UploadCommandType) (st : UploadPackState) (fc : Bool)
      (out : List (List Nat)) (h : Hash),
      UploadCommandType.Have h ∈
        cmds.takeWhile (fun c => c ≠ UploadCommandType.Done) →
      (hc h || ht h || hb h || htg h) = true →
      ackPkt h ∈ (upload_pack_loop hc ht hb htg cmds st fc out).2.2 ∧
      h ∈ (upload_pack_loop hc ht hb htg cmds st fc out).1.have_ := by
  intro cmds
  induction cmds with
  | nil => intro st fc out h hmem _; simp [List.takeWhile] at hmem
  | cons cmd rest ih =>
    intro st fc out h hmem hhas
    by_cases hdone : cmd = UploadCommandType.Done
    · subst hdone
      simp [List.takeWhile] at hmem
    · rw [List.takeWhile_cons] at hmem
      rw [if_pos (by simpa using hdone)] at hmem
      rcases List.mem_cons.mp hmem with heq | hmem'
      · rw [← heq]
        unfold upload_pack_loop
        dsimp only
        rw [if_pos (by simpa using hhas)]
        constructor
        · exact upload_pack_loop_out_mono hc ht hb htg rest _ _ _ _
            (List.mem_append_right _ (List.mem_singleton.mpr rfl))
        · exact upload_pack_loop_have_mono hc ht hb htg rest _ _ _ h
            (List.mem_append_right _ (List.mem_singleton.mpr rfl))
      · cases cmd with
        | Want h2 => exact ih _ _ _ h hmem' hhas
        | Have h2 =>
          unfold upload_pack_loop
          dsimp only
          split
          · exact ih _ _ _ h hmem' hhas
          · exact ih _ _ _ h hmem' hhas
        | Done => exact absurd rfl hdone
        | Shallow h2 => exact ih _ _ _ h hmem' hhas
        | Deepen d => exact ih _ _ _ h hmem' hhas
        | Capabilities caps => exact ih _ _ _ h hmem' hhas
        | Flush => exact ih _ _ _ h hmem' hhas
        | Command s => exact ih _ _ _ h hmem' hhas
        | Agent s => exact ih _ _ _ h hmem' hhas
        | Symrefs => exact ih _ _ _ h hmem' hhas
        | Unborn => exact ih _ _ _ h hmem' hhas
        | RefPfx s => exact ih _ _ _ h hmem' hhas
        | ObjectFormat s => exact ih _ _ _ h hmem' hhas
        | Peel => exact ih _ _ _ h hmem' hhas
        | ThinPack => exact ih _ _ _ h hmem' hhas
        | OfsDelta => exact ih _ _ _ h hmem' hhas

theorem upload_pack_loop_nak (hc ht hb htg : Hash → Bool) :
    ∀ (cmds : List UploadCommandType) (st : UploadPackState)
      (out : List (List Nat)),
      UploadCommandType.Done ∈ cmds →
      (∀ h, UploadCommandType.Have h ∈
          cmds.takeWhile (fun c => c ≠ UploadCommandType.Done) →
        (hc h || ht h || hb h || htg h) = false) →
      nakPkt ∈ (upload_pack_loop hc ht hb htg cmds st false out).2.2 := by
  intro cmds
  induction cmds with
  | nil => intro st out hd; cases hd
  | cons cmd rest ih =>
    intro st out hd hno
    by_cases hdone : cmd = UploadCommandType.Done
    · subst hdone
      unfold upload_pack_loop
      dsimp only
      rw [if_pos (show (!false) = true from rfl)]
      exact List.mem_append_right _ (List.mem_singleton.mpr rfl)
    · have hd' : UploadCommandType.Done ∈ rest := by
        rcases List.mem_cons.mp hd with heq | hmem
        · exact absurd heq.symm hdone
        · exact hmem
      have hno' : ∀ h, UploadCommandType.Have h ∈
          rest.takeWhile (fun c => c ≠ UploadCommandType.Done) →
          (hc h || ht h || hb h || htg h) = false := by
        intro h hm
        refine hno h ?_
        rw [List.takeWhile_cons, if_pos (by simpa using hdone)]
        exact List.mem_cons_of_mem cmd hm
      cases cmd with
      | Want h2 => exact ih _ _ hd' hno'
      | Have h2 =>
        have hh2 : (hc h2 || ht h2 || hb h2 || htg h2) = false := by
          refine hno h2 ?_
          rw [List.takeWhile_cons, if_pos (by simpa using hdone)]
          exact List.mem_cons_self _ _
        unfold upload_pack_loop
        dsimp only
        rw [if_neg (by simp [hh2])]
        exact ih _ _ hd' hno'
      | Done => exact absurd rfl hdone
      | Shallow h2 => exact ih _ _ hd' hno'
      | Deepen d => exact ih _ _ hd' hno'
      | Capabilities caps => exact ih _ _ hd' hno'
      | Flush => exact ih _ _ hd' hno'
      | Command s => exact ih _ _ hd' hno'
      | Agent s => exact ih _ _ hd' hno'
      | Symrefs => exact ih _ _ hd' hno'
      | Unborn => exact ih _ _ hd' hno'
      | RefPfx s => exact ih _ _ hd' hno'
      | ObjectFormat s => exact ih _ _ hd' hno'
      | Peel => exact ih _ _ hd' hno'
      | ThinPack => exact ih _ _ hd' hno'
      | OfsDelta => exact ih _ _ hd' hno'

/-- C9: in the v1 negotiation loop, every `have <hash>` line arriving before
`done` whose hash any ODB kind probe (`has_commit`/`has_tree`/`has_blob`/
`has_tag`) recognizes is answered with the pkt-line `ACK <hash>\n` and the
hash is recorded in `request.have`; and when `done` is reached with no
common base found, the server emits the pkt-line `NAK\n`. -/
theorem upload_pack_have_ack_done_nak (hc ht hb htg : Hash → Bool)
    (cmds : List UploadCommandType) (st : UploadPackState)
    (out : List (List Nat)) :
    (∀ h fc,
      UploadCommandType.Have h ∈
        cmds.takeWhile (fun c => c ≠ UploadCommandType.Done) →
      (hc h || ht h || hb h || htg h) = true →
      ackPkt h ∈ (upload_pack_loop hc ht hb htg cmds st fc out).2.2 ∧
      h ∈ (upload_pack_loop hc ht hb htg cmds st fc out).1.have_) ∧
    (UploadCommandType.Done ∈ cmds →
      (∀ h, UploadCommandType.Have h ∈
          cmds.takeWhile (fun c => c ≠ UploadCommandType.Done) →
        (hc h || ht h || hb h || htg h) = false) →
      nakPkt ∈ (upload_pack_loop hc ht hb htg cmds st false out).2.2) :=
  ⟨fun h fc hmem hhas => upload_pack_loop_ack hc ht hb htg cmds st fc out h hmem hhas,
   fun hd hno => upload_pack_loop_nak hc ht hb htg cmds st out hd hno⟩

/-- Witness for C9: with only `h1cex` known to the ODB, the command list
`[have h1cex, done]` produces its ACK and records the hash, while
`[have h2cex, done]` finds no common base and produces a NAK. -/
theorem upload_pack_have_ack_done_nak_witness :
    (ackPkt h1cex ∈ (upload_pack_loop hasOnlyH1 hasNone9 hasNone9 hasNone9
        [.Have h1cex, .Done] UploadPackState.init false []).2.2 ∧
      h1cex ∈ (upload_pack_loop hasOnlyH1 hasNone9 hasNone9 hasNone9
        [.Have h1cex, .Done] UploadPackState.init false []).1.have_) ∧
    nakPkt ∈ (upload_pack_loop hasOnlyH1 hasNone9 hasNone9 hasNone9
        [.Have h2cex, .Done] UploadPackState.init false []).2.2 :=
  ⟨(upload_pack_have_ack_done_nak hasOnlyH1 hasNone9 hasNone9 hasNone9
      [.Have h1cex, .Done] UploadPackState.init []).1 h1cex false
      (by decide) (by decide),
   (upload_pack_have_ack_done_nak hasOnlyH1 hasNone9 hasNone9 hasNone9
      [.Have h2cex, .Done] UploadPackState.init []).2 (by decide)
      (by
        intro h hm
        simp [List.takeWhile] at hm
        subst hm
        decide)⟩

end GitInner
